import Mathlib

/-!
Verification of the caption & linguistic-annotation pipeline of the
`animebook` repository (subtitle parsing, normalization, playback state,
tokenization fallback, furigana synthesis, client result cache).

Shallow-embedding conventions:
* JavaScript strings are `List Char` (`Str`); `Array.from` iteration over
  code points coincides with the char list.
* JavaScript numbers are exact rationals `ℚ`; a value that may be `NaN`
  (produced by `Number(...)` on non-numeric text) is `JSNum := Option ℚ`
  with `none` playing the role of `NaN`.  Comparisons with `NaN` are
  `false`, arithmetic propagates `NaN`, and division by zero follows the
  IEEE sign convention where it is observed (`isOverlapping`).
* `Math.random()`-based caption ids are modelled by a deterministic
  counter threaded through the parsers; only freshness/equality of ids
  matters to the verified properties.
* `Array.prototype.sort(cmp)` is modelled as a stable insertion sort
  driven by the sign of the comparator.
-/

namespace Animebook

abbrev Str := List Char

/-- JavaScript whitespace (the set recognised by `String.prototype.trim`
and by `\s` in regexps): tab, LF, VT, FF, CR, space, NBSP, Ogham space,
the U+2000–200A range, LS, PS, NNBSP, MMSP, ideographic space, BOM. -/
def isJsWhitespace (c : Char) : Bool :=
  let n := c.toNat
  (9 ≤ n && n ≤ 13) || n = 32 || n = 0xa0 || n = 0x1680 ||
  (0x2000 ≤ n && n ≤ 0x200a) || n = 0x2028 || n = 0x2029 ||
  n = 0x202f || n = 0x205f || n = 0x3000 || n = 0xfeff

/-- Model of `String.prototype.trim`. -/
def jsTrim (s : Str) : Str :=
  ((s.dropWhile isJsWhitespace).reverse.dropWhile isJsWhitespace).reverse

/-- Decimal digit test (`\d` in regexps, i.e. `[0-9]`). -/
def isDigitChar (c : Char) : Bool :=
  48 ≤ c.toNat && c.toNat ≤ 57

/-- Model of `String.prototype.split` at every character satisfying `p`
(the use sites split on single-character regexp classes such as
`/[,.]/` and on the literal separators `':'` and `','`). -/
def splitOnPred (p : Char → Bool) : Str → List Str
  | [] => [[]]
  | c :: rest =>
    if p c then
      [] :: splitOnPred p rest
    else
      match splitOnPred p rest with
      | [] => [[c]]
      | piece :: pieces => (c :: piece) :: pieces

/-- Model of `Array.prototype.join(sep)` for a list of strings. -/
def joinSep (sep : Str) : List Str → Str
  | [] => []
  | [s] => s
  | s :: rest => s ++ sep ++ joinSep sep rest

/-- Little-endian decimal digits of `n` (`Nat.digits 10 n`, but by
structural recursion on a fuel bound so that the kernel can reduce it;
any `fuel ≥ n` gives the same value). -/
def natDigitsAux : ℕ → ℕ → List ℕ
  | _, 0 => []
  | 0, _ => []
  | fuel + 1, n + 1 => ((n + 1) % 10) :: natDigitsAux fuel ((n + 1) / 10)

/-- Decimal digit characters of `n`, most significant first
(`Number.prototype.toString` for a non-negative integer). -/
def natToChars (n : ℕ) : Str :=
  if n = 0 then ['0'] else ((natDigitsAux n n).map Nat.digitChar).reverse

/-- Model of `Number.prototype.toString` for an integer. -/
def intToChars (i : ℤ) : Str :=
  if i < 0 then '-' :: natToChars i.natAbs else natToChars i.toNat

/-- Model of `String.prototype.padStart(2, '0')`. -/
def padStart2 (s : Str) : Str :=
  if s.length < 2 then List.replicate (2 - s.length) '0' ++ s else s

/-- Value of a non-empty all-digit string, most significant digit first. -/
def digitsVal (s : Str) : ℕ :=
  s.foldl (fun a c => 10 * a + (c.toNat - 48)) 0

/-! Kernel-computable rational arithmetic.  The `+ - * /` of `ℚ` are
`@[irreducible]` in this toolchain, which would block `decide`-style
evaluation of the embedded code on concrete inputs; these equivalents
go through `mkRat`, which does reduce.  Each is proved equal to the
corresponding field operation below. -/

def qAdd (a b : ℚ) : ℚ := mkRat (a.num * b.den + b.num * a.den) (a.den * b.den)

def qSub (a b : ℚ) : ℚ := mkRat (a.num * b.den - b.num * a.den) (a.den * b.den)

def qMul (a b : ℚ) : ℚ := mkRat (a.num * b.num) (a.den * b.den)

def qDiv (a b : ℚ) : ℚ :=
  if 0 ≤ b.num then mkRat (a.num * b.den) (a.den * b.num.natAbs)
  else mkRat (-(a.num * b.den)) (a.den * b.num.natAbs)

/-- Model of `⌊q⌋` (`Math.floor`), computably. -/
def ratFloor (q : ℚ) : ℤ := q.num.fdiv q.den

/-- Truncation toward zero (the quotient underlying the JavaScript `%`
remainder), computably. -/
def ratTrunc (q : ℚ) : ℤ := q.num.tdiv q.den

/-- A JavaScript number: `some q` is the finite value `q`, `none` is `NaN`. -/
abbrev JSNum := Option ℚ

/-- Model of `Number(str)` restricted to the literals the pipeline feeds it:
after trimming, the empty string is `0`, an optionally signed run of
decimal digits is its value, anything else is `NaN` (`none`). -/
def jsNumber (s : Str) : JSNum :=
  let t := jsTrim s
  if t = [] then some 0
  else if t.all isDigitChar then some (mkRat (digitsVal t) 1)
  else
    match t with
    | '-' :: rest =>
      if rest ≠ [] && rest.all isDigitChar then some (mkRat (-(digitsVal rest : ℤ)) 1) else none
    | '+' :: rest =>
      if rest ≠ [] && rest.all isDigitChar then some (mkRat (digitsVal rest) 1) else none
    | _ => none

/-- Model of `Number(x)` where `x` may be `undefined` (an out-of-range
destructuring target); `Number(undefined)` is `NaN`. -/
def jsNumberOpt : Option Str → JSNum
  | none => none
  | some s => jsNumber s

def jsAdd : JSNum → JSNum → JSNum
  | some a, some b => some (qAdd a b)
  | _, _ => none

def jsSub : JSNum → JSNum → JSNum
  | some a, some b => some (qSub a b)
  | _, _ => none

def jsMulConst (k : ℚ) : JSNum → JSNum
  | some a => some (qMul k a)
  | none => none

def jsDivConst : JSNum → ℚ → JSNum
  | some a, k => some (qDiv a k)
  | none, _ => none

/-- Model of `a > b` on JavaScript numbers: false whenever either side is `NaN`. -/
def jsGtB : JSNum → JSNum → Bool
  | some a, some b => decide (b < a)
  | _, _ => false

/-- Model of `a <= b` on JavaScript numbers: false whenever either side is `NaN`. -/
def jsLeB : JSNum → JSNum → Bool
  | some a, some b => decide (a ≤ b)
  | _, _ => false

/-- Model of `a === b` on JavaScript numbers (`NaN === NaN` is false). -/
def jsEqB : JSNum → JSNum → Bool
  | some a, some b => decide (a = b)
  | _, _ => false

/-- Model of `Math.min` (`NaN` propagates). -/
def jsMin : JSNum → JSNum → JSNum
  | some a, some b => some (min a b)
  | _, _ => none

/-- Model of `Math.max` (`NaN` propagates). -/
def jsMax : JSNum → JSNum → JSNum
  | some a, some b => some (max a b)
  | _, _ => none

/-- JavaScript `%` on finite numbers (remainder with the dividend's sign). -/
def jsFmod (a b : ℚ) : ℚ :=
  qSub a (qMul b (mkRat (ratTrunc (qDiv a b)) 1))

/-! ### Time codec (`src/stores/captions.ts`)

```js
function timeToSeconds(timeStr) {
  const [time, ms] = timeStr.split(/[,.]/)
  const [hours, minutes, seconds] = time.split(':').map(Number)
  return hours * 3600 + minutes * 60 + seconds + Number(ms) / 1000
}

function formatSrtTime(seconds) {
  const pad = (n) => n.toString().padStart(2, '0')
  const hours = Math.floor(seconds / 3600)
  const minutes = Math.floor((seconds % 3600) / 60)
  const secs = Math.floor(seconds % 60)
  const ms = Math.floor((seconds % 1) * 1000)
  return `${pad(hours)}:${pad(minutes)}:${pad(secs)},${pad(ms)}`
}
```
-/

def isCommaDot (c : Char) : Bool := c = ',' || c = '.'

def timeToSeconds (timeStr : Str) : JSNum :=
  let pieces := splitOnPred isCommaDot timeStr
  let time := pieces.headD []
  let ms := pieces.get? 1
  let nums := (splitOnPred (fun c => c = ':') time).map jsNumber
  let hours := (nums.get? 0).getD none
  let minutes := (nums.get? 1).getD none
  let seconds := (nums.get? 2).getD none
  jsAdd (jsAdd (jsAdd (jsMulConst 3600 hours) (jsMulConst 60 minutes)) seconds)
    (jsDivConst (jsNumberOpt ms) 1000)

def formatSrtTime (seconds : ℚ) : Str :=
  let pad := fun (n : ℤ) => padStart2 (intToChars n)
  let hours := ratFloor (qDiv seconds 3600)
  let minutes := ratFloor (qDiv (jsFmod seconds 3600) 60)
  let secs := ratFloor (jsFmod seconds 60)
  let ms := ratFloor (qMul (jsFmod seconds 1) 1000)
  pad hours ++ [':'] ++ pad minutes ++ [':'] ++ pad secs ++ [','] ++ pad ms

/-! ### Data model (`~/types`, as used by `src/stores/captions.ts`) -/

structure Token where
  surface_form : Str
  basic_form : Str
  /-- `reading` may be `undefined` on analyzer tokens; `none` models that. -/
  reading : Option Str
  pos : Str
  deriving Repr, DecidableEq

structure Caption where
  id : ℕ
  startTime : JSNum
  endTime : JSNum
  text : Str
  voice : Option Str := none
  isActive : Bool := false
  lane : Option ℕ := none
  furigana : Option (List (Str × Str)) := none
  tokens : Option (List Token) := none
  deriving Repr, DecidableEq

/-! ### Blank-line block splitting

`content.split(/\n\s*\n/)`: a match starts at a newline and extends,
greedily through whitespace, to the last newline reachable inside the
maximal whitespace run that follows. -/

/-- For the text after a matched leading `'\n'`: the number of characters
consumed by `\s*\n` (greedy), i.e. up to and including the last newline
inside the maximal whitespace prefix; `none` if no such newline exists
(the regexp does not match at this position). -/
def blankRunSplit (rest : Str) : Option ℕ :=
  let w := rest.takeWhile isJsWhitespace
  match w.reverse.findIdx? (· = '\n') with
  | some i => some (w.length - i)
  | none => none

/-- Character-consuming scan for the blank-line split.  The `fuel`
argument only makes the recursion structural (each step consumes at
least one character, so `fuel = s.length` never runs out). -/
def splitBlankAux : ℕ → Str → Str → List Str
  | _, acc, [] => [acc.reverse]
  | 0, acc, s => [acc.reverse ++ s]
  | fuel + 1, acc, c :: rest =>
    if c = '\n' then
      match blankRunSplit rest with
      | some k => acc.reverse :: splitBlankAux fuel [] (rest.drop k)
      | none => splitBlankAux fuel (c :: acc) rest
    else splitBlankAux fuel (c :: acc) rest

/-- Model of `str.split(/\n\s*\n/)`. -/
def splitBlank (s : Str) : List Str := splitBlankAux s.length [] s

/-! ### Timestamp regexp matching

`/(\d{2}:\d{2}:\d{2},\d{3}) --> (\d{2}:\d{2}:\d{2},\d{3})/` (SRT) and the
dot-millisecond variant (VTT): an unanchored leftmost search for a
fixed-shape 29-character template, returning the two captured groups. -/

/-- Shape of one captured timestamp group: `\d{2}:\d{2}:\d{2}` then the
separator (`','` or `'.'`) then `\d{3}`. -/
def stampShape (sep : Char) : Str → Bool
  | [h1, h2, c1, m1, m2, c2, s1, s2, cm, x1, x2, x3] =>
    isDigitChar h1 && isDigitChar h2 && c1 = ':' &&
    isDigitChar m1 && isDigitChar m2 && c2 = ':' &&
    isDigitChar s1 && isDigitChar s2 && cm = sep &&
    isDigitChar x1 && isDigitChar x2 && isDigitChar x3
  | _ => false

def matchTimePairAt (sep : Char) (s : Str) : Option (Str × Str) :=
  let g1 := s.take 12
  let mid := (s.drop 12).take 5
  let g2 := (s.drop 17).take 12
  if stampShape sep g1 && mid = [' ', '-', '-', '>', ' '] && stampShape sep g2 then
    some (g1, g2)
  else none

/-- Model of `line.match(regexp)` for the timestamp-pair regexp: try each start
position left to right. -/
def matchTimePair (sep : Char) : Str → Option (Str × Str)
  | [] => none
  | c :: rest =>
    match matchTimePairAt sep (c :: rest) with
    | some r => some r
    | none => matchTimePair sep rest

/-! ### Text cleanup helpers -/

/-- Model of `String.prototype.replaceAll`-style global literal replacement
(the chained `.replace(/pat/g, rep)` calls of `parseSRT`): one
left-to-right pass, non-overlapping matches. -/
def replaceAllSubF (pat rep : Str) : ℕ → Str → Str
  | _, [] => []
  | 0, s => s
  | fuel + 1, c :: rest =>
    if pat ≠ [] ∧ pat.isPrefixOf (c :: rest) then
      rep ++ replaceAllSubF pat rep fuel ((c :: rest).drop pat.length)
    else
      c :: replaceAllSubF pat rep fuel rest

def replaceAllSub (pat rep s : Str) : Str := replaceAllSubF pat rep s.length s

/-- HTML entity decoding applied by the SRT parser. -/
def decodeEntities (s : Str) : Str :=
  replaceAllSub ['&', '#', '3', '9', ';'] ['\''] (
    replaceAllSub ['&', 'q', 'u', 'o', 't', ';'] ['"'] (
      replaceAllSub ['&', 'a', 'm', 'p', ';'] ['&'] (
        replaceAllSub ['&', 'g', 't', ';'] ['>'] (
          replaceAllSub ['&', 'l', 't', ';'] ['<'] s))))

/-- Model of `text.replace(/\{\\[^}]*\}/g, '')`: strip ASS style-override tags. -/
def stripAssTagsF : ℕ → Str → Str
  | _, [] => []
  | 0, s => s
  | fuel + 1, '{' :: '\\' :: rest2 =>
    match rest2.findIdx? (· = '}') with
    | some i => stripAssTagsF fuel (rest2.drop (i + 1))
    | none => '{' :: stripAssTagsF fuel ('\\' :: rest2)
  | fuel + 1, c :: rest => c :: stripAssTagsF fuel rest

def stripAssTags (s : Str) : Str := stripAssTagsF s.length s

/-! ### Format parsers (`src/stores/captions.ts`) -/

/-- Model of `parseSRT`: split on blank lines; each block is index line + timing
line + text lines; HTML-entity-decode the text.  Returns a (possibly
empty) array, never null.  `generateId()` is modelled by the block's
index in the split. -/
def parseSRT (content : Str) : List Caption :=
  let entries := (splitBlank (jsTrim content)).enum.map (fun p =>
    let lines := splitOnPred (· = '\n') (jsTrim p.2)
    if lines.length < 3 then none
    else
      match matchTimePair ',' (lines.getD 1 []) with
      | none => none
      | some (g1, g2) =>
        some { id := p.1
               startTime := timeToSeconds g1
               endTime := timeToSeconds g2
               text := decodeEntities (joinSep ['\n'] (lines.drop 2)) })
  entries.filterMap id

/-- Model of `parseASS`: select `Dialogue:` lines; null when there are none; a
line with fewer than 10 comma-fields is skipped; no check that the
timestamps parse or that `endTime > startTime`. -/
def parseASS (content : Str) : Option (List Caption) :=
  let lines := splitOnPred (· = '\n') content
  let events := lines.filter (fun l =>
    ['D', 'i', 'a', 'l', 'o', 'g', 'u', 'e', ':'].isPrefixOf l)
  if events.isEmpty then none
  else
    some ((events.enum.map (fun p =>
      let parts := splitOnPred (· = ',') p.2
      if parts.length < 10 then none
      else
        let startTime := timeToSeconds (parts.getD 1 [])
        let endTime := timeToSeconds (parts.getD 2 [])
        let text := stripAssTags (jsTrim (joinSep [','] (parts.drop 9)))
        let voice :=
          if parts.getD 3 [] ≠ [] ∧ parts.getD 4 [] ≠ [] then
            some (parts.getD 3 [] ++ [' '] ++ parts.getD 4 [])
          else none
        some { id := p.1
               startTime := startTime
               endTime := endTime
               text := text
               voice := voice })).filterMap id)

/-- Model of `parseVTT`: null unless the content starts with `WEBVTT`; drops the
header block, then cue blocks of timing line + text lines. -/
def parseVTT (content : Str) : Option (List Caption) :=
  if ['W', 'E', 'B', 'V', 'T', 'T'].isPrefixOf content then
    some ((((splitBlank content).drop 1).enum.map (fun p =>
      let lines := splitOnPred (· = '\n') (jsTrim p.2)
      if lines.length < 2 then none
      else
        match matchTimePair '.' (lines.getD 0 []) with
        | none => none
        | some (g1, g2) =>
          some { id := p.1
                 startTime := timeToSeconds g1
                 endTime := timeToSeconds g2
                 text := joinSep ['\n'] (lines.drop 1) })).filterMap id)
  else none

/-! ### `Array.prototype.sort` model: stable insertion sort on the
sign of the comparator. -/

def insertCmp (cmp : α → α → ℤ) (x : α) : List α → List α
  | [] => [x]
  | y :: ys => if cmp x y < 0 then x :: y :: ys else y :: insertCmp cmp x ys

def jsSort (cmp : α → α → ℤ) (l : List α) : List α :=
  l.foldl (fun acc x => insertCmp cmp x acc) []

/-! ### Caption normalizer (`src/stores/captions.ts`) -/

/-- The comparator of `sortCaptionsByTime` (it returns only `1`/`-1`). -/
def captionTimeCmp (a b : Caption) : ℤ :=
  if jsEqB a.startTime b.startTime then
    if jsGtB a.endTime b.endTime then 1 else -1
  else
    if jsGtB a.startTime b.startTime then 1 else -1

def sortCaptionsByTime (captions : List Caption) : List Caption :=
  jsSort captionTimeCmp captions

/-- Model of `containedDuration / rightDuration > 0.3` with JavaScript division:
`x / 0` is `±Infinity` for `x ≠ 0` (so the comparison is `0 < x`),
`0 / 0` and anything involving `NaN` is `NaN` (comparison false). -/
def divGtPoint3 : JSNum → JSNum → Bool
  | some a, some b => if b = 0 then decide (0 < a) else decide (mkRat 3 10 < qDiv a b)
  | _, _ => false

/-- Source:
```js
function isOverlapping(left, right) {
  const containedDuration = right.endTime - left.startTime
  const rightDuration = right.endTime - right.startTime
  return containedDuration > 0.2 || (containedDuration / rightDuration) > 0.3
}
``` -/
def isOverlapping (left right : Caption) : Bool :=
  let containedDuration := jsSub right.endTime left.startTime
  let rightDuration := jsSub right.endTime right.startTime
  jsGtB containedDuration (some (mkRat 1 5)) || divGtPoint3 containedDuration rightDuration

/-- Model of `mergeDuplicates`: one pass over adjacent pairs; on a match the
later caption absorbs the earlier one's span (in place) and the earlier
index is recorded for removal; removals are applied afterwards.  The
equivalent recursion: drop the earlier caption and continue with the
widened later one. -/
def mergeAux (caption : Caption) : List Caption → List Caption
  | [] => [caption]
  | nextCaption :: rest =>
    if caption.text = nextCaption.text ∧ isOverlapping caption nextCaption then
      mergeAux { nextCaption with
        startTime := jsMin caption.startTime nextCaption.startTime
        endTime := jsMax caption.endTime nextCaption.endTime } rest
    else
      caption :: mergeAux nextCaption rest

def mergeDuplicates : List Caption → List Caption
  | [] => []
  | c :: rest => mergeAux c rest

/-- The backward walk of `findPreviousCaptions` over the captions below
`currentIndex` (nearest first): skip a caption whose lane was already
seen, counting misses, and stop after more than `maxLookBehind = 5`
misses. -/
def findPrevAux : List Caption → List Caption → List ℕ → ℕ → List Caption
  | [], prevCaptions, _, _ => prevCaptions
  | p :: rest, prevCaptions, previousLanes, misses =>
    match p.lane with
    | some l =>
      if l ∈ previousLanes then
        if misses + 1 > 5 then prevCaptions
        else findPrevAux rest prevCaptions previousLanes (misses + 1)
      else findPrevAux rest (prevCaptions ++ [p]) (l :: previousLanes) misses
    | none => findPrevAux rest (prevCaptions ++ [p]) previousLanes misses

def findPreviousCaptions (captions : List Caption) (currentIndex : ℕ) : List Caption :=
  jsSort (fun a b => ((a.lane.getD 0 : ℤ) - (b.lane.getD 0 : ℤ)))
    (findPrevAux (captions.take currentIndex).reverse [] [] 0)

/-- Model of `for (lane = 0; lane < takenLanes.length + 1; lane++) if (!takenLanes.includes(lane)) ...`,
with the `caption.lane === undefined → 0` fallback. -/
def firstFreeLane (takenLanes : List ℕ) : ℕ :=
  match (List.range (takenLanes.length + 1)).find? (fun lane => lane ∉ takenLanes) with
  | some lane => lane
  | none => 0

def assignLanesAux (acc : List Caption) : List Caption → List Caption
  | [] => acc
  | c :: rest =>
    let previousCaptions := findPreviousCaptions acc acc.length
    let takenLanes :=
      (previousCaptions.filter (fun prev => isOverlapping prev c)).filterMap (·.lane)
    assignLanesAux (acc ++ [{ c with lane := some (firstFreeLane takenLanes) }]) rest

def assignCaptionsToLanes (captions : List Caption) : List Caption :=
  assignLanesAux [] captions

/-- Model of `parseCaptions`: try VTT, then ASS, then SRT (always an array — an
empty array is truthy and stops the fallthrough), then sort, merge
duplicates and assign lanes. -/
def parseCaptions (fileContent : Str) : Option (List Caption) :=
  let parsed :=
    match parseVTT fileContent with
    | some l => some l
    | none =>
      match parseASS fileContent with
      | some l => some l
      | none => some (parseSRT fileContent)
  match parsed with
  | none => none
  | some l => some (assignCaptionsToLanes (mergeDuplicates (sortCaptionsByTime l)))

/-! ### Track / playback state (`useCaptionsStore`) -/

structure SubtitleTrack where
  captions : List Caption
  /-- `metadata.language` -/
  language : Str
  /-- `metadata.title` -/
  title : Str
  deriving Repr, DecidableEq

structure StoreState where
  subtitleTracks : List SubtitleTrack
  activeTrackIndex : ℕ
  activeCaptionIds : List ℕ
  currentTime : JSNum
  deriving Repr, DecidableEq

def initialStore : StoreState :=
  { subtitleTracks := [], activeTrackIndex := 0, activeCaptionIds := [], currentTime := some 0 }

/-- Source:
```js
const active = activeTrack.value?.captions.filter(c =>
  c.startTime <= currentTime.value && currentTime.value <= c.endTime) || []
activeCaptionIds.value = active.map(c => c.id)
``` -/
def updateActiveCaptions (s : StoreState) : StoreState :=
  let active : List Caption :=
    match s.subtitleTracks.get? s.activeTrackIndex with
    | some tr => tr.captions.filter (fun c =>
        jsLeB c.startTime s.currentTime && jsLeB s.currentTime c.endTime)
    | none => []
  { s with activeCaptionIds := active.map (·.id) }

def setCurrentTime (s : StoreState) (time : JSNum) : StoreState :=
  updateActiveCaptions { s with currentTime := time }

/-- Model of `setActiveTrack(index)`: no-op unless `0 ≤ index < tracks.length`
(a negative argument is likewise a no-op; the index is a natural here). -/
def setActiveTrack (s : StoreState) (index : ℕ) : StoreState :=
  if index < s.subtitleTracks.length then
    updateActiveCaptions { s with activeTrackIndex := index }
  else s

def cycleActiveTrack (s : StoreState) : StoreState :=
  if s.subtitleTracks.length ≤ 1 then s
  else
    updateActiveCaptions
      { s with activeTrackIndex := (s.activeTrackIndex + 1) % s.subtitleTracks.length }

def clearCaptions (s : StoreState) : StoreState :=
  { s with subtitleTracks := [], activeTrackIndex := 0, activeCaptionIds := [] }

def playCaption (s : StoreState) (caption : Caption) : StoreState :=
  let s1 := setCurrentTime s (jsAdd caption.startTime (some (mkRat 1 10000)))
  { s1 with activeCaptionIds := [caption.id] }

/-- JavaScript `x || default` for an optional string (`undefined` and
`''` are falsy). -/
def strOrDefault (x : Option Str) (dflt : Str) : Str :=
  match x with
  | some s => if s = [] then dflt else s
  | none => dflt

/-- Model of `loadCaptions(fileContent, language?, title?)`.  The per-caption
enrichment (`processFurigana`, `tokenize`) runs through asynchronous
oracles modelled as functions of the caption text: `furiganaOracle`
yields the client furigana list (that call never throws), and
`tokenOracle` yields `none` when `tokenize` rejected (the error is
caught per caption).  Note that `activeCaptionIds` is not recomputed
here. -/
def loadCaptions (furiganaOracle : Str → List (Str × Option Str))
    (tokenOracle : Str → Option (List Token)) (s : StoreState) (fileContent : Str)
    (language title : Option Str) : StoreState :=
  match parseCaptions fileContent with
  | none => s
  | some parsed =>
    let lang := strOrDefault language ['u', 'n', 'k', 'n', 'o', 'w', 'n']
    let titleV := strOrDefault title
      (['T', 'r', 'a', 'c', 'k', ' '] ++ natToChars (s.subtitleTracks.length + 1))
    let isDuplicate := s.subtitleTracks.any (fun track =>
      track.language = lang ∧ track.title = titleV ∧
        track.captions.length = parsed.length)
    if isDuplicate then s
    else
      let isJapanese :=
        language = some ['j', 'p', 'n'] ∨ language = some ['j', 'a'] ∨
          language = none ∨ language = some []
      let enriched :=
        if isJapanese then
          parsed.map (fun c =>
            let furiganaResult := furiganaOracle c.text
            let c1 :=
              if furiganaResult ≠ [] then
                { c with furigana := some (furiganaResult.map fun item => (item.1, item.2.getD [])) }
              else c
            match tokenOracle c.text with
            | some toks => if toks ≠ [] then { c1 with tokens := some toks } else c1
            | none => c1)
        else parsed
      let tracks := s.subtitleTracks ++
        [({ captions := enriched, language := lang, title := titleV } : SubtitleTrack)]
      { s with
        subtitleTracks := tracks
        activeTrackIndex := if tracks.length = 1 then 0 else s.activeTrackIndex }

/-! ### Morphological analyzer chain (`src/server/services/tokenizer.ts`) -/

/-- One character of `JAPANESE_REGEX =
`[　-〿぀-ゟ゠-ヿ＀-ﾟ一-龯㐀-䶿]`. -/
def isJapaneseChar (c : Char) : Bool :=
  let n := c.toNat
  (0x3000 ≤ n && n ≤ 0x303f) || (0x3040 ≤ n && n ≤ 0x309f) ||
  (0x30a0 ≤ n && n ≤ 0x30ff) || (0xff00 ≤ n && n ≤ 0xff9f) ||
  (0x4e00 ≤ n && n ≤ 0x9faf) || (0x3400 ≤ n && n ≤ 0x4dbf)

def hasJapaneseChar (s : Str) : Bool := s.any isJapaneseChar

def createSimpleToken (text : Str) : Token :=
  { surface_form := text, basic_form := text, reading := some text
    pos := ['u', 'n', 'k', 'n', 'o', 'w', 'n'] }

/-- Model of `text.split(/(\s+)/).filter(Boolean)`: with the separators captured
and empties filtered, this is exactly the list of maximal runs of
whitespace / non-whitespace characters. -/
def splitRunsAux (cur : Str) (curWs : Bool) : Str → List Str
  | [] => [cur.reverse]
  | c :: rest =>
    if isJsWhitespace c = curWs then splitRunsAux (c :: cur) curWs rest
    else cur.reverse :: splitRunsAux [c] (isJsWhitespace c) rest

def splitRuns : Str → List Str
  | [] => []
  | c :: rest => splitRunsAux [c] (isJsWhitespace c) rest

/-- Model of `simpleTokenize`: single-character splitting (dropping whitespace
characters) for Japanese-looking text, whitespace-run splitting
otherwise. -/
def simpleTokenize (text : Str) : List Token :=
  if hasJapaneseChar text then
    (text.filter (fun c => !isJsWhitespace c)).map (fun c => createSimpleToken [c])
  else
    (splitRuns text).map createSimpleToken

inductive TokMethod
  | kuromoji
  | sudachi
  deriving Repr, DecidableEq

/-- The backend picked by the `tokenizationMethod` dispatch in
`tokenize`. -/
def selectedAnalyzer (analyzeKuromoji analyzeSudachi : Str → Option (List Token))
    (method : TokMethod) : Str → Option (List Token) :=
  match method with
  | .kuromoji => analyzeKuromoji
  | .sudachi => analyzeSudachi

/-- Model of `tokenize(text, retryCount)`.  The selected backend (`analyzeKuromoji`
or `analyzeSudachi`, including a failing `initializeTokenizer`) is an
oracle returning `none` when the awaited call throws; the `catch` block
retries twice and then falls back to `simpleTokenize`. -/
def tokenize (analyzeKuromoji analyzeSudachi : Str → Option (List Token))
    (method : TokMethod) (text : Str) (retryCount : ℕ) : List Token :=
  if text = [] ∨ jsTrim text = [] then []
  else
    match selectedAnalyzer analyzeKuromoji analyzeSudachi method text with
    | some toks => toks
    | none =>
      if retryCount < 2 then
        tokenize analyzeKuromoji analyzeSudachi method text (retryCount + 1)
      else simpleTokenize text
termination_by 2 - retryCount

/-! ### Furigana synthesizer (`src/unnamed/part_006`: `processTokens`,
`katakanaToHiragana`) -/

/-- Model of `KANJI_REGEX = /[一-龯㐀-䶿]/` on one character. -/
def isKanjiChar (c : Char) : Bool :=
  let n := c.toNat
  (0x4e00 ≤ n && n ≤ 0x9faf) || (0x3400 ≤ n && n ≤ 0x4dbf)

def kanjiTest (s : Str) : Bool := s.any isKanjiChar

/-- Model of `KATAKANA_REGEX = /^[゠-ヿ]+$/`. -/
def katakanaTest (s : Str) : Bool := !s.isEmpty && s.all (fun c =>
  0x30a0 ≤ c.toNat && c.toNat ≤ 0x30ff)

/-- Model of `katakana.replace(/[ァ-ヶ]/g, m => fromCharCode(code(m) - 0x60))`. -/
def katakanaToHiragana (katakana : Str) : Str :=
  katakana.map (fun c =>
    if 0x30a1 ≤ c.toNat ∧ c.toNat ≤ 0x30f6 then Char.ofNat (c.toNat - 0x60) else c)

/-- One element of the `processTokens` output: `{ text, furigana? }`. -/
structure FuriganaPair where
  text : Str
  furigana : Option Str := none
  deriving Repr, DecidableEq

/-- The body of the `tokens.map` in `processTokens`.  The reading is a
possibly-`undefined` string; `!reading || reading === surface_form` is
the first three disjuncts below (`undefined === s` is false for every
string `s`). -/
def processToken (token : Token) : FuriganaPair :=
  let surface_form := token.surface_form
  if surface_form = [] ∨ jsTrim surface_form = [] then { text := surface_form }
  else if token.reading = none ∨ token.reading = some [] ∨
      token.reading = some surface_form then
    { text := surface_form }
  else if ¬ kanjiTest surface_form then { text := surface_form }
  else if katakanaTest (token.reading.getD []) then
    { text := surface_form, furigana := some (katakanaToHiragana (token.reading.getD [])) }
  else { text := surface_form, furigana := some (token.reading.getD []) }

def processTokens (tokens : List Token) : List FuriganaPair :=
  tokens.map processToken

/-! ### Client-side furigana result cache (`useFurigana`,
`src/unnamed/part_001`) -/

def MAX_CACHE_SIZE : ℕ := 1000

/-- A JavaScript `Map` in insertion order. -/
abbrev FuriganaCache := List (Str × List (Str × Str))

/-- Model of `Map.prototype.set`: an existing key keeps its position, a new key
is appended. -/
def jsMapSet (m : FuriganaCache) (k : Str) (v : List (Str × Str)) : FuriganaCache :=
  if m.any (fun e => e.1 = k) then m.map (fun e => if e.1 = k then (k, v) else e)
  else m ++ [(k, v)]

/-- Model of `addToCache`: when the cache is full, delete the first (oldest) key,
then `set`. -/
def addToCache (cache : FuriganaCache) (key : Str) (value : List (Str × Str)) :
    FuriganaCache :=
  let cache1 := if MAX_CACHE_SIZE ≤ cache.length then cache.tail else cache
  jsMapSet cache1 key value

/-- The per-token relation of claim C8: the emitted pair keeps the
surface text; the reading is omitted exactly when it is absent (or
empty), equal to the surface, the surface is empty or whitespace, or the
surface contains no CJK ideograph; and an emitted reading is the raw
reading, converted by the fixed `-0x60` offset exactly when the reading
lies entirely in the katakana block, in which case no character of the
convertible range survives. -/
def furiganaPairSpec (t : Token) (out : FuriganaPair) : Prop :=
  out.text = t.surface_form ∧
  (out.furigana = none ↔
    (t.surface_form = [] ∨ jsTrim t.surface_form = [] ∨ t.reading = none ∨
     t.reading = some [] ∨ t.reading = some t.surface_form ∨
     kanjiTest t.surface_form = false)) ∧
  (∀ f, out.furigana = some f →
    f = (if katakanaTest (t.reading.getD []) then katakanaToHiragana (t.reading.getD [])
         else t.reading.getD []) ∧
    (katakanaTest (t.reading.getD []) = true →
      ∀ c ∈ f, ¬ (0x30a1 ≤ c.toNat ∧ c.toNat ≤ 0x30f6)))

/-- The claimed invariant: `activeCaptionIds` equals the ids of the
captions of the active track whose interval contains `currentTime`. -/
def activeIdsInvariant (s : StoreState) : Prop :=
  s.activeCaptionIds =
    (match s.subtitleTracks.get? s.activeTrackIndex with
     | some tr => (tr.captions.filter (fun c =>
         jsLeB c.startTime s.currentTime && jsLeB s.currentTime c.endTime)).map (·.id)
     | none => [])

instance (s : StoreState) : Decidable (activeIdsInvariant s) := by
  rw [activeIdsInvariant]
  infer_instance

/-- Sample caption `[0,10]` with id 0 and text `a`. -/
def sampleCapA : Caption :=
  { id := 0, startTime := some (mkRat 0 1), endTime := some (mkRat 10 1), text := ['a'] }

/-- Sample caption `[0,10]` with id 1 and text `b`. -/
def sampleCapB : Caption :=
  { id := 1, startTime := some (mkRat 0 1), endTime := some (mkRat 10 1), text := ['b'] }

/-- A one-track store at time 0 whose track holds `sampleCapA` and
`sampleCapB` (both spanning the current time). -/
def sampleState2 : StoreState :=
  { subtitleTracks := [{ captions := [sampleCapA, sampleCapB], language := [], title := [] }]
    activeTrackIndex := 0
    activeCaptionIds := [sampleCapA.id, sampleCapB.id]
    currentTime := some (mkRat 0 1) }

/-- An SRT body with a single cue spanning `[0,10]` seconds. -/
def sampleSrtContent : Str :=
  ['1', '\n'] ++ ['0', '0', ':', '0', '0', ':', '0', '0', ',', '0', '0', '0'] ++
    [' ', '-', '-', '>', ' '] ++ ['0', '0', ':', '0', '0', ':', '1', '0', ',', '0', '0', '0'] ++
    ['\n', 'h', 'i']

/-- An SRT body whose cue has its timestamps reversed (`00:00:02` to
`00:00:01`). -/
def sampleReversedSrtContent : Str :=
  ['1', '\n'] ++ ['0', '0', ':', '0', '0', ':', '0', '2', ',', '0', '0', '0'] ++
    [' ', '-', '-', '>', ' '] ++ ['0', '0', ':', '0', '0', ':', '0', '1', ',', '0', '0', '0'] ++
    ['\n', 'h', 'i']

/-- An ASS `Dialogue:` line with 10 comma-fields whose start/end fields
are not timestamps. -/
def sampleBadAssContent : Str :=
  ['D', 'i', 'a', 'l', 'o', 'g', 'u', 'e', ':', ' ', 'x', ',', 'y', ',', 'z', ',',
   'a', ',', 'b', ',', 'c', ',', 'd', ',', 'e', ',', 'f', ',', 't', 'x', 't']

/-- Model of `a ≤ b` on caption times, false when either is `NaN`. -/
def timeLeProp : JSNum → JSNum → Prop
  | some a, some b => a ≤ b
  | _, _ => False

/-- Ordering of captions by `startTime`. -/
def startLe (a b : Caption) : Prop := timeLeProp a.startTime b.startTime

/-- A caption used as an out-of-range `getD` default. -/
def emptyCaption : Caption := { id := 0, startTime := none, endTime := none, text := [] }

/-- Nine captions, pairwise distinct texts, already sorted by start
time: one long caption `[0,100]`, a chain of seven degenerate captions
(each with `endTime < startTime`) that all share lane 1, and a final
proper caption `[3.6,10]`. -/
def c4CounterList : List Caption :=
  [{ id := 0, startTime := some (mkRat 0 1), endTime := some (mkRat 100 1), text := ['t', '0'] },
   { id := 1, startTime := some (mkRat 1 2), endTime := some (mkRat 9 20), text := ['t', '1'] },
   { id := 2, startTime := some (mkRat 1 1), endTime := some (mkRat 3 5), text := ['t', '2'] },
   { id := 3, startTime := some (mkRat 3 2), endTime := some (mkRat 11 10), text := ['t', '3'] },
   { id := 4, startTime := some (mkRat 2 1), endTime := some (mkRat 8 5), text := ['t', '4'] },
   { id := 5, startTime := some (mkRat 5 2), endTime := some (mkRat 21 10), text := ['t', '5'] },
   { id := 6, startTime := some (mkRat 3 1), endTime := some (mkRat 13 5), text := ['t', '6'] },
   { id := 7, startTime := some (mkRat 7 2), endTime := some (mkRat 31 10), text := ['t', '7'] },
   { id := 8, startTime := some (mkRat 18 5), endTime := some (mkRat 10 1), text := ['t', '8'] }]

/-! ### The computable rational operations agree with the field ones -/

theorem qAdd_eq (a b : ℚ) : qAdd a b = a + b := by
  rw [qAdd, Rat.mkRat_eq_div]
  conv_rhs => rw [← Rat.num_div_den a, ← Rat.num_div_den b]
  have ha : (a.den : ℚ) ≠ 0 := by exact_mod_cast a.den_nz
  have hb : (b.den : ℚ) ≠ 0 := by exact_mod_cast b.den_nz
  push_cast
  field_simp

theorem qSub_eq (a b : ℚ) : qSub a b = a - b := by
  rw [qSub, Rat.mkRat_eq_div]
  conv_rhs => rw [← Rat.num_div_den a, ← Rat.num_div_den b]
  have ha : (a.den : ℚ) ≠ 0 := by exact_mod_cast a.den_nz
  have hb : (b.den : ℚ) ≠ 0 := by exact_mod_cast b.den_nz
  push_cast
  field_simp
  ring

theorem qMul_eq (a b : ℚ) : qMul a b = a * b := by
  rw [qMul, Rat.mkRat_eq_div]
  conv_rhs => rw [← Rat.num_div_den a, ← Rat.num_div_den b]
  have ha : (a.den : ℚ) ≠ 0 := by exact_mod_cast a.den_nz
  have hb : (b.den : ℚ) ≠ 0 := by exact_mod_cast b.den_nz
  push_cast
  field_simp

theorem qDiv_eq (a b : ℚ) : qDiv a b = a / b := by
  rcases lt_trichotomy b.num 0 with hneg | hzero | hpos
  · rw [qDiv, if_neg (by omega), Rat.mkRat_eq_div]
    conv_rhs => rw [← Rat.num_div_den a, ← Rat.num_div_den b]
    have ha : (a.den : ℚ) ≠ 0 := by exact_mod_cast a.den_nz
    have hb : (b.den : ℚ) ≠ 0 := by exact_mod_cast b.den_nz
    have hbn : (b.num : ℚ) ≠ 0 := by exact_mod_cast (show b.num ≠ 0 by omega)
    have habs : ((b.num.natAbs : ℤ) : ℚ) = -(b.num : ℚ) := by
      rw [Int.ofNat_natAbs_of_nonpos (le_of_lt hneg)]
      push_cast
      ring
    push_cast [Int.cast_natAbs]
    rw [abs_of_neg (show (b.num : ℚ) < 0 by exact_mod_cast hneg)]
    field_simp
  · have hb0 : b = 0 := by
      rw [← Rat.num_div_den b, hzero]
      norm_num
    subst hb0
    rw [qDiv]
    norm_num [Rat.mkRat_eq_div]
  · rw [qDiv, if_pos (le_of_lt hpos), Rat.mkRat_eq_div]
    conv_rhs => rw [← Rat.num_div_den a, ← Rat.num_div_den b]
    have ha : (a.den : ℚ) ≠ 0 := by exact_mod_cast a.den_nz
    have hb : (b.den : ℚ) ≠ 0 := by exact_mod_cast b.den_nz
    have hbn : (b.num : ℚ) ≠ 0 := by exact_mod_cast (show b.num ≠ 0 by omega)
    push_cast [Int.cast_natAbs]
    rw [abs_of_pos (show (0 : ℚ) < (b.num : ℚ) by exact_mod_cast hpos)]
    field_simp

theorem mkRat_one_eq (n : ℤ) : mkRat n 1 = (n : ℚ) := by
  rw [Rat.mkRat_eq_div]
  norm_num

theorem ratFloor_eq (q : ℚ) : ratFloor q = ⌊q⌋ := by
  rw [ratFloor, Rat.floor_def, Int.fdiv_eq_ediv _ (by positivity)]

theorem ratTrunc_eq_floor_of_nonneg (q : ℚ) (h : 0 ≤ q) : ratTrunc q = ⌊q⌋ := by
  have hnum : 0 ≤ q.num := Rat.num_nonneg.mpr h
  rw [ratTrunc, Int.tdiv_eq_ediv hnum (by positivity), Rat.floor_def]

/-! ## Claims -/

/-- Claim C1: the spec states that two adjacent identical-text captions
merge exactly when the temporal intersection with the later caption
exceeds 0.2s or is more than 30% of the later caption's duration, and in
particular that identical-text captions `[1.0,2.0]` and `[1.9,3.0]` do
NOT merge.  The code disagrees: `isOverlapping` computes
`right.endTime - left.startTime` — the span from the earlier start to
the later end, not the intersection — so the pair `[1.0,2.0]`/`[1.9,3.0]`
IS merged (50% > 0.2s by the wrong formula), and even temporally
disjoint identical captions `[1.0,2.0]` and `[50,51]` are merged.  The
`[1.0,2.0]`/`[1.5,3.0]` pair merges to `[1.0,3.0]` as the spec says.
This theorem evaluates the merge pass at those three inputs. -/
theorem C1_mergeDuplicates_failing_input_eval :
    mergeDuplicates
        [{ id := 0, startTime := some (mkRat 1 1), endTime := some (mkRat 2 1), text := ['a'] },
         { id := 1, startTime := some (mkRat 19 10), endTime := some (mkRat 3 1), text := ['a'] }] =
      [{ id := 1, startTime := some (mkRat 1 1), endTime := some (mkRat 3 1), text := ['a'] }] ∧
    mergeDuplicates
        [{ id := 0, startTime := some (mkRat 1 1), endTime := some (mkRat 2 1), text := ['a'] },
         { id := 1, startTime := some (mkRat 3 2), endTime := some (mkRat 3 1), text := ['a'] }] =
      [{ id := 1, startTime := some (mkRat 1 1), endTime := some (mkRat 3 1), text := ['a'] }] ∧
    mergeDuplicates
        [{ id := 0, startTime := some (mkRat 1 1), endTime := some (mkRat 2 1), text := ['a'] },
         { id := 1, startTime := some (mkRat 50 1), endTime := some (mkRat 51 1), text := ['a'] }] =
      [{ id := 1, startTime := some (mkRat 1 1), endTime := some (mkRat 51 1), text := ['a'] }] := by
  refine ⟨by decide, by decide, by decide⟩

/-- Claim C6 (counterexample): the claim says every parser returns null
(not an empty list) when it finds zero valid entries.  In fact, when the
format gate passes but no entry is valid, each parser returns an empty
array — which is truthy, so `parseCaptions` stops the fallthrough with
zero captions: `parseVTT` on a bare `WEBVTT` header, `parseASS` on a
`Dialogue:` line with too few fields, and `parseSRT` (whose result is
never null) on junk, all return empty lists. -/
theorem C6_empty_result_not_null_cex :
    parseVTT ['W', 'E', 'B', 'V', 'T', 'T'] = some [] ∧
    parseASS ['D', 'i', 'a', 'l', 'o', 'g', 'u', 'e', ':', ' ', 'a', ',', 'b'] = some [] ∧
    parseSRT ['x'] = [] ∧
    parseCaptions ['W', 'E', 'B', 'V', 'T', 'T'] = some [] := by
  refine ⟨by decide, by decide, by decide, by decide⟩

/-- Claim C6 (amended): a parser returns null exactly when its format
gate fails — `parseVTT` iff the content does not start with `WEBVTT`,
`parseASS` iff no line starts with `Dialogue:` — and `parseSRT` always
returns a list; a parser whose gate passes but which finds zero valid
entries returns an empty (truthy) list, stopping the fallthrough. -/
theorem C6_parser_null_iff_gate_fails (content : Str) :
    (parseVTT content = none ↔ ¬ ['W', 'E', 'B', 'V', 'T', 'T'].isPrefixOf content) ∧
    (parseASS content = none ↔
      ((splitOnPred (· = '\n') content).filter (fun l =>
        ['D', 'i', 'a', 'l', 'o', 'g', 'u', 'e', ':'].isPrefixOf l)).isEmpty) := by
  constructor
  · rw [parseVTT]
    by_cases h : (['W', 'E', 'B', 'V', 'T', 'T'] : Str).isPrefixOf content <;> simp [h]
  · rw [parseASS]
    by_cases h : ((splitOnPred (· = '\n') content).filter (fun l =>
        (['D', 'i', 'a', 'l', 'o', 'g', 'u', 'e', ':'] : Str).isPrefixOf l)).isEmpty <;>
      simp [h]

/-- Claim C10: `parseCaptions` never returns null: `parseVTT` and
`parseASS` may decline, but the last-tried `parseSRT` returns an array
for every input (possibly empty, which is truthy), so the
"unrecognized format" result is unreachable and every load yields a
(possibly empty) caption list. -/
theorem C10_parseCaptions_never_null (content : Str) :
    (parseCaptions content).isSome := by
  rw [parseCaptions]
  cases hv : parseVTT content with
  | some l => simp
  | none =>
    cases ha : parseASS content with
    | some l => simp
    | none => simp

/-! Cache lemmas for claim C9. -/

theorem jsMapSet_fresh (m : FuriganaCache) (k : Str) (v : List (Str × Str))
    (h : k ∉ m.map Prod.fst) : jsMapSet m k v = m ++ [(k, v)] := by
  rw [jsMapSet, if_neg]
  simp only [List.any_eq_true, decide_eq_true_eq, not_exists, not_and]
  intro e he hek
  exact h (List.mem_map.mpr ⟨e, he, hek⟩)

/-- Claim C9: the client furigana cache is FIFO with capacity
`MAX_CACHE_SIZE = 1000`: inserting any sequence of distinct keys into an
empty cache through `addToCache` leaves exactly the most recent
`min n 1000` keys, in insertion order (so the evicted keys are exactly
the oldest ones), and the size never exceeds the capacity. -/
theorem C9_cache_fifo_capacity (v : Str → List (Str × Str)) (ks : List Str)
    (h : ks.Nodup) :
    ((ks.foldl (fun m k => addToCache m k (v k)) []).map Prod.fst =
        ks.drop (ks.length - min ks.length MAX_CACHE_SIZE)) ∧
    (ks.foldl (fun m k => addToCache m k (v k)) []).length =
        min ks.length MAX_CACHE_SIZE := by
  have hmax : MAX_CACHE_SIZE = 1000 := rfl
  induction ks using List.reverseRecOn with
  | nil => simp
  | append_singleton ks k ih =>
    rw [List.nodup_append] at h
    obtain ⟨hks, -, hdisj⟩ := h
    have hk_notin : k ∉ ks := fun hmem => hdisj hmem (by simp)
    obtain ⟨ihmap, ihlen⟩ := ih hks
    rw [List.foldl_append]
    set M := ks.foldl (fun m k => addToCache m k (v k)) [] with hM
    have hfresh : k ∉ M.map Prod.fst := by
      rw [ihmap]
      intro hmem
      exact hk_notin (List.mem_of_mem_drop hmem)
    rw [List.foldl_cons, List.foldl_nil, addToCache]
    rw [show (ks ++ [k]).length = ks.length + 1 from by simp]
    by_cases hfull : MAX_CACHE_SIZE ≤ M.length
    · have hkslen : MAX_CACHE_SIZE ≤ ks.length := by omega
      have hlen1000 : M.length = MAX_CACHE_SIZE := by omega
      have htail_fresh : k ∉ M.tail.map Prod.fst := by
        intro hmem
        exact hfresh (List.map_subset _ (List.tail_subset M) hmem)
      rw [if_pos hfull, jsMapSet_fresh _ _ _ htail_fresh]
      have hdropix : ks.length + 1 - min (ks.length + 1) MAX_CACHE_SIZE ≤ ks.length := by
        omega
      constructor
      · rw [List.map_append, List.map_tail, ihmap, List.tail_drop,
          List.drop_append_of_le_length hdropix]
        have : ks.length - min ks.length MAX_CACHE_SIZE + 1 =
            ks.length + 1 - min (ks.length + 1) MAX_CACHE_SIZE := by omega
        rw [this]
        simp
      · have htl : M.tail.length = MAX_CACHE_SIZE - 1 := by
          rw [List.length_tail, hlen1000]
        simp only [List.length_append, htl, List.length_cons, List.length_nil]
        omega
    · have hkslt : ks.length < MAX_CACHE_SIZE := by omega
      rw [if_neg hfull, jsMapSet_fresh _ _ _ hfresh]
      constructor
      · rw [List.map_append, ihmap]
        have h0 : ks.length - min ks.length MAX_CACHE_SIZE = 0 := by omega
        have h0' : ks.length + 1 - min (ks.length + 1) MAX_CACHE_SIZE = 0 := by omega
        rw [h0, h0']
        simp
      · simp only [List.length_append, ihlen, List.length_cons, List.length_nil]
        omega

/-- Claim C9 witness: a concrete distinct-key insertion sequence. -/
theorem C9_cache_fifo_capacity_witness :
    ([['a'], ['b'], ['c']] : List Str).Nodup ∧
    (((([['a'], ['b'], ['c']] : List Str).foldl
        (fun m k => addToCache m k []) []).map Prod.fst =
      ([['a'], ['b'], ['c']] : List Str).drop (3 - min 3 MAX_CACHE_SIZE)) ∧
     ((([['a'], ['b'], ['c']] : List Str).foldl
        (fun m k => addToCache m k []) []).length = min 3 MAX_CACHE_SIZE)) :=
  ⟨by decide, C9_cache_fifo_capacity (fun _ => []) [['a'], ['b'], ['c']] (by decide)⟩

/-! Tokenizer lemmas for claim C5. -/

theorem jsTrim_eq_nil_of_all_ws (s : Str) (h : ∀ c ∈ s, isJsWhitespace c) :
    jsTrim s = [] := by
  rw [jsTrim]
  have h1 : s.dropWhile isJsWhitespace = [] := List.dropWhile_eq_nil_iff.mpr h
  rw [h1]
  simp

theorem splitRunsAux_ne_nil (cur : Str) (b : Bool) (s : Str) :
    splitRunsAux cur b s ≠ [] := by
  induction s generalizing cur b with
  | nil => simp [splitRunsAux]
  | cons c rest ih =>
    rw [splitRunsAux]
    by_cases hc : isJsWhitespace c = b
    · simpa [hc] using ih (c :: cur) b
    · simp [hc]

theorem simpleTokenize_ne_nil (text : Str) (h : jsTrim text ≠ []) :
    simpleTokenize text ≠ [] := by
  have hex : ∃ c ∈ text, ¬ isJsWhitespace c := by
    by_contra hall
    push_neg at hall
    exact h (jsTrim_eq_nil_of_all_ws text (by simpa using hall))
  have htext : text ≠ [] := by
    rintro rfl
    obtain ⟨c, hc, -⟩ := hex
    exact absurd hc (List.not_mem_nil c)
  rw [simpleTokenize]
  by_cases hj : hasJapaneseChar text
  · rw [if_pos hj]
    obtain ⟨c, hc, hcw⟩ := hex
    have : c ∈ text.filter (fun c => !isJsWhitespace c) :=
      List.mem_filter.mpr ⟨hc, by simpa using hcw⟩
    intro hnil
    rw [List.map_eq_nil_iff] at hnil
    rw [hnil] at this
    exact absurd this (List.not_mem_nil c)
  · rw [if_neg hj]
    obtain ⟨c, rest, rfl⟩ := List.exists_cons_of_ne_nil htext
    rw [splitRuns]
    intro hnil
    rw [List.map_eq_nil_iff] at hnil
    exact splitRunsAux_ne_nil [c] (isJsWhitespace c) rest hnil

theorem tokenize_of_analyzer_fails (ak as : Str → Option (List Token))
    (method : TokMethod) (text : Str) (r : ℕ)
    (hfail : selectedAnalyzer ak as method text = none) (htrim : jsTrim text ≠ []) :
    tokenize ak as method text r = simpleTokenize text := by
  have htext : text ≠ [] := by
    rintro rfl
    exact htrim rfl
  have key : ∀ n r, 2 - r ≤ n → tokenize ak as method text r = simpleTokenize text := by
    intro n
    induction n with
    | zero =>
      intro r hr
      rw [tokenize.eq_def, if_neg (by simp [htext, htrim])]
      simp only [hfail]
      rw [if_neg (by omega)]
    | succ n ihn =>
      intro r hr
      rw [tokenize.eq_def, if_neg (by simp [htext, htrim])]
      simp only [hfail]
      by_cases hr2 : r < 2
      · rw [if_pos hr2]
        exact ihn (r + 1) (by omega)
      · rw [if_neg hr2]
  exact key (2 - r) r le_rfl

/-- Claim C5: every call of `tokenize` resolves to a defined token list
(the function is total in the model): empty or whitespace-only text
yields `[]` before any backend is consulted; when the selected backend
fails (throws) on every retry, the result is exactly the simple fallback
segmentation; and the fallback produces at least one token for every
input that can reach it (i.e. whose trimmed text is non-empty). -/
theorem C5_tokenize_never_throws_fallback_nonempty
    (ak as : Str → Option (List Token)) (method : TokMethod) (text : Str) (r : ℕ) :
    (jsTrim text = [] → tokenize ak as method text r = []) ∧
    (selectedAnalyzer ak as method text = none → jsTrim text ≠ [] →
      tokenize ak as method text r = simpleTokenize text ∧
        tokenize ak as method text r ≠ []) := by
  constructor
  · intro htrim
    rw [tokenize.eq_def]
    rw [if_pos (Or.inr htrim)]
  · intro hfail htrim
    have heq := tokenize_of_analyzer_fails ak as method text r hfail htrim
    exact ⟨heq, heq ▸ simpleTokenize_ne_nil text htrim⟩

/-- Claim C5 witness: an always-failing analyzer on the text `"ab"`
falls back to the simple segmentation, which is non-empty. -/
theorem C5_tokenize_never_throws_fallback_nonempty_witness :
    tokenize (fun _ => none) (fun _ => none) TokMethod.kuromoji ['a', 'b'] 0 =
        simpleTokenize ['a', 'b'] ∧
      tokenize (fun _ => none) (fun _ => none) TokMethod.kuromoji ['a', 'b'] 0 ≠ [] :=
  (C5_tokenize_never_throws_fallback_nonempty (fun _ => none) (fun _ => none)
    TokMethod.kuromoji ['a', 'b'] 0).2 rfl (by decide)

/-! Furigana lemmas for claim C8. -/

theorem char_toNat_ofNat_small (n : ℕ) (h : n < 0xd800) : (Char.ofNat n).toNat = n := by
  rw [Char.ofNat, dif_pos (Or.inl h)]
  simp [Char.ofNatAux, Char.toNat, UInt32.toNat, BitVec.toNat_ofNatLt]

/-- After `katakanaToHiragana`, no character remains in the convertible
katakana range U+30A1–U+30F6 (each such character was shifted into the
hiragana block). -/
theorem katakanaToHiragana_no_convertible (s : Str) :
    ∀ c ∈ katakanaToHiragana s, ¬ (0x30a1 ≤ c.toNat ∧ c.toNat ≤ 0x30f6) := by
  intro c hc
  rw [katakanaToHiragana] at hc
  obtain ⟨c0, hc0, rfl⟩ := List.mem_map.mp hc
  split_ifs with h
  · rw [char_toNat_ofNat_small _ (by omega)]
    omega
  · exact h

theorem processToken_spec (t : Token) : furiganaPairSpec t (processToken t) := by
  rw [furiganaPairSpec, processToken]
  by_cases h1 : t.surface_form = [] ∨ jsTrim t.surface_form = []
  · rw [if_pos h1]
    exact ⟨rfl, by simp only [true_iff]; tauto, by simp⟩
  · rw [if_neg h1]
    push_neg at h1
    by_cases h2 : t.reading = none ∨ t.reading = some [] ∨ t.reading = some t.surface_form
    · rw [if_pos h2]
      exact ⟨rfl, by simp only [true_iff]; tauto, by simp⟩
    · rw [if_neg h2]
      push_neg at h2
      by_cases h3 : kanjiTest t.surface_form
      · rw [if_neg (by simpa using h3)]
        by_cases h4 : katakanaTest (t.reading.getD [])
        · rw [if_pos h4]
          refine ⟨rfl, by simp [h1.1, h1.2, h2.1, h2.2.1, h2.2.2, h3], ?_⟩
          intro f hf
          simp only [Option.some.injEq] at hf
          subst hf
          rw [if_pos h4]
          exact ⟨rfl, fun _ => katakanaToHiragana_no_convertible _⟩
        · rw [if_neg h4]
          refine ⟨rfl, by simp [h1.1, h1.2, h2.1, h2.2.1, h2.2.2, h3], ?_⟩
          intro f hf
          simp only [Option.some.injEq] at hf
          subst hf
          rw [if_neg h4]
          exact ⟨rfl, fun hk => absurd hk (by simpa using h4)⟩
      · rw [if_pos (by simpa using h3)]
        refine ⟨rfl, ?_, by simp⟩
        simp only [Bool.not_eq_true] at h3
        simp [h3]

/-- Claim C8 (amended): `processTokens` emits one `(text, furigana?)`
pair per token (positionally), keeping the surface text; the reading is
omitted when absent/empty, equal to the surface, or when the surface has
no CJK ideograph (or is empty/whitespace); a reading consisting entirely
of katakana-block characters is converted by the fixed `-0x60` offset,
after which no character of the convertible range U+30A1–U+30F6 remains
— but characters of the katakana block outside that range (e.g. the
prolonged sound mark U+30FC) are NOT converted, so an emitted reading
need not be entirely hiragana. -/
theorem C8_processTokens_per_token (tokens : List Token) :
    List.Forall₂ furiganaPairSpec tokens (processTokens tokens) := by
  rw [processTokens]
  induction tokens with
  | nil => simp
  | cons t rest ih =>
    rw [List.map_cons]
    exact List.Forall₂.cons (processToken_spec t) ih

/-- Claim C8 witness: a concrete two-token list through the amended
per-token relation. -/
theorem C8_processTokens_per_token_witness :
    List.Forall₂ furiganaPairSpec
      [{ surface_form := ['日'], basic_form := ['日'], reading := some ['ニ'], pos := [] },
       { surface_form := ['a'], basic_form := ['a'], reading := some ['b'], pos := [] }]
      (processTokens
        [{ surface_form := ['日'], basic_form := ['日'], reading := some ['ニ'], pos := [] },
         { surface_form := ['a'], basic_form := ['a'], reading := some ['b'], pos := [] }]) :=
  C8_processTokens_per_token _

/-- Claim C8 (counterexample): the claim's conclusion "every emitted
reading is in hiragana" fails.  For the token `一` with the
fully-katakana reading `ー` (the prolonged sound mark U+30FC, inside the
katakana block U+30A0–U+30FF but outside the converted range
U+30A1–U+30F6), the emitted furigana is `ー` itself: katakana, not
hiragana (U+3040–U+309F). -/
theorem C8_prolonged_mark_not_hiragana_cex :
    processTokens
        [{ surface_form := ['一'], basic_form := ['一'], reading := some ['ー'], pos := [] }] =
      [{ text := ['一'], furigana := some ['ー'] }] ∧
    katakanaTest ['ー'] = true ∧
    (0x30a0 ≤ 'ー'.toNat ∧ 'ー'.toNat ≤ 0x30ff) ∧
    ¬ (0x3040 ≤ 'ー'.toNat ∧ 'ー'.toNat ≤ 0x309f) := by
  refine ⟨by decide, by decide, by decide, by decide⟩

/-! Store-state lemmas for claim C3. -/

theorem activeIdsInvariant_update (s : StoreState) :
    activeIdsInvariant (updateActiveCaptions s) := by
  simp only [activeIdsInvariant, updateActiveCaptions]
  cases h : s.subtitleTracks.get? s.activeTrackIndex <;> simp [h]

/-- Claim C3 (amended): `setCurrentTime` always re-establishes the
invariant, as do `setActiveTrack` on a valid index, `cycleActiveTrack`
with at least two tracks, and `clearCaptions`; `setActiveTrack` on an
invalid index and `cycleActiveTrack` with at most one track leave the
state unchanged.  But `playCaption` overwrites `activeCaptionIds` with
the singleton `[caption.id]` (not the recomputed set), and
`loadCaptions` never recomputes `activeCaptionIds` at all. -/
theorem C3_active_ids_maintenance (s : StoreState) (t : JSNum) (i : ℕ) (c : Caption)
    (furiganaOracle : Str → List (Str × Option Str))
    (tokenOracle : Str → Option (List Token)) (content : Str)
    (language title : Option Str) :
    activeIdsInvariant (setCurrentTime s t) ∧
    (i < s.subtitleTracks.length → activeIdsInvariant (setActiveTrack s i)) ∧
    (¬ i < s.subtitleTracks.length → setActiveTrack s i = s) ∧
    (2 ≤ s.subtitleTracks.length → activeIdsInvariant (cycleActiveTrack s)) ∧
    (s.subtitleTracks.length ≤ 1 → cycleActiveTrack s = s) ∧
    activeIdsInvariant (clearCaptions s) ∧
    (playCaption s c).activeCaptionIds = [c.id] ∧
    (loadCaptions furiganaOracle tokenOracle s content language title).activeCaptionIds =
      s.activeCaptionIds := by
  refine ⟨?_, ?_, ?_, ?_, ?_, ?_, ?_, ?_⟩
  · exact activeIdsInvariant_update _
  · intro hi
    rw [setActiveTrack, if_pos hi]
    exact activeIdsInvariant_update _
  · intro hi
    rw [setActiveTrack, if_neg hi]
  · intro h2
    rw [cycleActiveTrack, if_neg (by omega)]
    exact activeIdsInvariant_update _
  · intro h1
    rw [cycleActiveTrack, if_pos h1]
  · rw [activeIdsInvariant, clearCaptions]
    rfl
  · rfl
  · rw [loadCaptions]
    cases parseCaptions content with
    | none => rfl
    | some parsed =>
      simp only []
      split_ifs <;> rfl

/-- Claim C3 witness: a concrete one-track state exercising the
hypothesis-guarded conjunct for `setActiveTrack`. -/
theorem C3_active_ids_maintenance_witness :
    0 < sampleState2.subtitleTracks.length ∧
    activeIdsInvariant (setActiveTrack sampleState2 0) :=
  ⟨by decide,
    (C3_active_ids_maintenance sampleState2 (some (mkRat 0 1)) 0 sampleCapA
      (fun _ => []) (fun _ => none) [] none none).2.1 (by decide)⟩

/-- Claim C3 (counterexample): the invariant is NOT re-established by
every listed operation.  `playCaption` on a track whose two captions
both contain the target time leaves `activeCaptionIds = [id of played]`
while the filter set has both ids; and `loadCaptions` of a parsed track
whose first caption spans `currentTime = 0` leaves the stale empty
`activeCaptionIds`. -/
theorem C3_playCaption_loadCaptions_stale_cex :
    ¬ activeIdsInvariant (playCaption sampleState2 sampleCapA) ∧
    ¬ activeIdsInvariant
        (loadCaptions (fun _ => []) (fun _ => none) initialStore sampleSrtContent none none) := by
  refine ⟨by decide, by decide⟩

/-! String-parsing lemmas for claims C2 and C7. -/

theorem splitOnPred_ne_nil (p : Char → Bool) (s : Str) : splitOnPred p s ≠ [] := by
  cases s with
  | nil => simp [splitOnPred]
  | cons c rest =>
    rw [splitOnPred]
    split_ifs
    · simp
    · cases h : splitOnPred p rest <;> simp

theorem splitOnPred_no_sep (p : Char → Bool) (s : Str)
    (h : ∀ c ∈ s, p c = false) : splitOnPred p s = [s] := by
  induction s with
  | nil => rfl
  | cons c rest ih =>
    rw [splitOnPred, if_neg (by simp [h c (by simp)])]
    rw [ih (fun c hc => h c (by simp [hc]))]

theorem splitOnPred_append_sep (p : Char → Bool) (xs : Str) (c₀ : Char) (ys : Str)
    (hxs : ∀ c ∈ xs, p c = false) (hc : p c₀ = true) :
    splitOnPred p (xs ++ c₀ :: ys) = xs :: splitOnPred p ys := by
  induction xs with
  | nil =>
    simp only [List.nil_append]
    rw [splitOnPred, if_pos (by simp [hc])]
  | cons x xs' ih =>
    rw [List.cons_append, splitOnPred, if_neg (by simp [hxs x (by simp)])]
    rw [ih (fun c hc' => hxs c (by simp [hc']))]

theorem dropWhile_eq_self_of_all_false (p : Char → Bool) (s : Str)
    (h : ∀ c ∈ s, p c = false) : s.dropWhile p = s := by
  cases s with
  | nil => rfl
  | cons c rest => rw [List.dropWhile_cons_of_neg (by simp [h c (by simp)])]

theorem jsTrim_no_ws (s : Str) (h : ∀ c ∈ s, isJsWhitespace c = false) :
    jsTrim s = s := by
  rw [jsTrim, dropWhile_eq_self_of_all_false _ _ h,
    dropWhile_eq_self_of_all_false _ _ (fun c hc => h c (List.mem_reverse.mp hc)),
    List.reverse_reverse]

theorem isDigitChar_not_ws (c : Char) (h : isDigitChar c = true) :
    isJsWhitespace c = false := by
  simp only [isDigitChar, Bool.and_eq_true, decide_eq_true_eq] at h
  simp [isJsWhitespace]
  omega

theorem isDigitChar_not_commaDot (c : Char) (h : isDigitChar c = true) :
    isCommaDot c = false := by
  simp only [isDigitChar, Bool.and_eq_true, decide_eq_true_eq] at h
  rw [isCommaDot]
  have hc1 : c ≠ ',' := by
    intro hcc
    subst hcc
    revert h
    decide
  have hc2 : c ≠ '.' := by
    intro hcc
    subst hcc
    revert h
    decide
  simp [hc1, hc2]

theorem isDigitChar_not_colon (c : Char) (h : isDigitChar c = true) :
    (c = ':') = False := by
  simp only [eq_iff_iff, iff_false]
  intro hcc
  subst hcc
  revert h
  decide

theorem jsNumber_digits (s : Str) (h : ∀ c ∈ s, isDigitChar c = true) :
    jsNumber s = some (mkRat (digitsVal s) 1) := by
  rw [jsNumber]
  simp only [jsTrim_no_ws s (fun c hc => isDigitChar_not_ws c (h c hc))]
  cases hs : s with
  | nil =>
    simp only [if_pos rfl]
    decide
  | cons c rest =>
    subst hs
    rw [if_neg (by simp), if_pos (List.all_eq_true.mpr h)]

/-! Decimal printing lemmas for claim C2. -/

theorem natDigitsAux_eq_digits (fuel n : ℕ) (h : n ≤ fuel) :
    natDigitsAux fuel n = Nat.digits 10 n := by
  induction fuel generalizing n with
  | zero =>
    interval_cases n
    simp [natDigitsAux]
  | succ fuel ih =>
    cases n with
    | zero => simp [natDigitsAux]
    | succ m =>
      rw [natDigitsAux, Nat.digits_def' (by norm_num : 1 < 10) (Nat.succ_pos m)]
      rw [ih ((m + 1) / 10) (by omega)]

theorem digitsVal_digits_map (ds : List ℕ) (hds : ∀ d ∈ ds, d < 10) :
    ((ds.map Nat.digitChar).reverse).foldl (fun a c => 10 * a + (c.toNat - 48)) 0 =
      Nat.ofDigits 10 ds := by
  rw [List.foldl_reverse]
  induction ds with
  | nil => rfl
  | cons d ds' ih =>
    rw [List.map_cons, List.foldr_cons, Nat.ofDigits_cons]
    rw [ih (fun d hd => hds d (by simp [hd]))]
    have hd10 : d < 10 := hds d (by simp)
    have hchar : (Nat.digitChar d).toNat = 48 + d := by
      interval_cases d <;> decide
    rw [hchar]
    ring_nf
    omega

theorem digitsVal_natToChars (n : ℕ) : digitsVal (natToChars n) = n := by
  rw [natToChars, digitsVal]
  by_cases hn : n = 0
  · subst hn
    decide
  · rw [if_neg hn, natDigitsAux_eq_digits n n le_rfl]
    rw [digitsVal_digits_map _ (fun d hd => Nat.digits_lt_base (by norm_num) hd)]
    exact Nat.ofDigits_digits 10 n

theorem digitsVal_padStart2 (s : Str) : digitsVal (padStart2 s) = digitsVal s := by
  rw [padStart2]
  split_ifs with h
  · rw [digitsVal, List.foldl_append]
    have : List.foldl (fun a c => 10 * a + (c.toNat - 48)) 0
        (List.replicate (2 - s.length) '0') = 0 := by
      generalize 2 - s.length = j
      induction j with
      | zero => rfl
      | succ j ih => rw [List.replicate_succ, List.foldl_cons]; simpa using ih
    rw [this]
    rfl
  · rfl

theorem natToChars_all_digits (n : ℕ) : ∀ c ∈ natToChars n, isDigitChar c = true := by
  rw [natToChars]
  split_ifs with h
  · intro c hc
    simp only [List.mem_singleton] at hc
    subst hc
    decide
  · intro c hc
    rw [natDigitsAux_eq_digits n n le_rfl] at hc
    rw [List.mem_reverse, List.mem_map] at hc
    obtain ⟨d, hd, rfl⟩ := hc
    have hd10 : d < 10 := Nat.digits_lt_base (by norm_num) hd
    interval_cases d <;> decide

theorem padStart2_all_digits (s : Str) (h : ∀ c ∈ s, isDigitChar c = true) :
    ∀ c ∈ padStart2 s, isDigitChar c = true := by
  rw [padStart2]
  split_ifs with hlen
  · intro c hc
    rw [List.mem_append] at hc
    cases hc with
    | inl hc =>
      rw [List.eq_of_mem_replicate hc]
      decide
    | inr hc => exact h c hc
  · exact h

theorem intToChars_ofNat (k : ℕ) : intToChars (k : ℤ) = natToChars k := by
  rw [intToChars, if_neg (by omega)]
  simp

/-! Arithmetic lemmas for claim C2. -/

theorem floor_div_add_small (a k : ℕ) (δ : ℚ) (h0 : 0 ≤ δ) (h1 : δ < 1) (hk : 0 < k) :
    ⌊((a : ℚ) + δ) / (k : ℚ)⌋ = ((a / k : ℕ) : ℤ) := by
  have hkq : (0 : ℚ) < (k : ℚ) := by exact_mod_cast hk
  have hqr : (a : ℚ) = (k : ℚ) * ((a / k : ℕ) : ℚ) + ((a % k : ℕ) : ℚ) := by
    exact_mod_cast (Nat.div_add_mod a k).symm
  have hrk : ((a % k : ℕ) : ℚ) < (k : ℚ) := by exact_mod_cast Nat.mod_lt a hk
  have hrk1 : ((a % k : ℕ) : ℚ) + 1 ≤ (k : ℚ) := by
    exact_mod_cast Nat.succ_le_of_lt (Nat.mod_lt a hk)
  have hr0 : (0 : ℚ) ≤ ((a % k : ℕ) : ℚ) := by positivity
  rw [Int.floor_eq_iff]
  constructor
  · rw [le_div_iff₀ hkq]
    simp only [Int.cast_natCast]
    ring_nf
    ring_nf at hqr
    linarith
  · rw [div_lt_iff₀ hkq]
    simp only [Int.cast_natCast]
    ring_nf
    ring_nf at hqr
    linarith

/-- The four fields computed by `formatSrtTime` on a non-negative
millisecond-exact time plus a sub-millisecond fraction: the fraction is
truncated away. -/
theorem formatSrtTime_fields (n : ℕ) (δ : ℚ) (h0 : 0 ≤ δ) (h1 : δ < 1/1000) :
    formatSrtTime ((n : ℚ)/1000 + δ) =
      padStart2 (natToChars (n / 3600000)) ++ [':'] ++
      padStart2 (natToChars (n % 3600000 / 60000)) ++ [':'] ++
      padStart2 (natToChars (n % 60000 / 1000)) ++ [','] ++
      padStart2 (natToChars (n % 1000)) := by
  have hδ1 : (1000 : ℚ) * δ < 1 := by linarith
  have hδ0 : (0 : ℚ) ≤ 1000 * δ := by linarith
  have ht0 : (0 : ℚ) ≤ (n : ℚ)/1000 + δ := by positivity
  rw [formatSrtTime]
  have hhours : ratFloor (qDiv ((n : ℚ)/1000 + δ) 3600) = ((n / 3600000 : ℕ) : ℤ) := by
    rw [ratFloor_eq, qDiv_eq]
    rw [show ((n : ℚ)/1000 + δ) / 3600 = ((n : ℚ) + 1000 * δ) / 3600000 by ring]
    exact_mod_cast floor_div_add_small n 3600000 (1000 * δ) hδ0 hδ1 (by norm_num)
  have hfmod3600 : jsFmod ((n : ℚ)/1000 + δ) 3600 = ((n % 3600000 : ℕ) : ℚ)/1000 + δ := by
    rw [jsFmod, qSub_eq, qMul_eq, mkRat_one_eq, qDiv_eq,
      ratTrunc_eq_floor_of_nonneg _ (by positivity)]
    rw [show ((n : ℚ)/1000 + δ) / 3600 = ((n : ℚ) + 1000 * δ) / ((3600000 : ℕ) : ℚ) by
      push_cast; ring]
    rw [floor_div_add_small n 3600000 (1000 * δ) hδ0 hδ1 (by norm_num)]
    have hmod : (n : ℚ) = 3600000 * ((n / 3600000 : ℕ) : ℚ) + ((n % 3600000 : ℕ) : ℚ) := by
      exact_mod_cast (Nat.div_add_mod n 3600000).symm
    simp only [Int.cast_natCast]
    linarith
  have hminutes : ratFloor (qDiv (jsFmod ((n : ℚ)/1000 + δ) 3600) 60) =
      ((n % 3600000 / 60000 : ℕ) : ℤ) := by
    rw [hfmod3600, ratFloor_eq, qDiv_eq]
    rw [show (((n % 3600000 : ℕ) : ℚ)/1000 + δ) / 60 =
        (((n % 3600000 : ℕ) : ℚ) + 1000 * δ) / 60000 by ring]
    exact_mod_cast floor_div_add_small (n % 3600000) 60000 (1000 * δ) hδ0 hδ1 (by norm_num)
  have hfmod60 : jsFmod ((n : ℚ)/1000 + δ) 60 = ((n % 60000 : ℕ) : ℚ)/1000 + δ := by
    rw [jsFmod, qSub_eq, qMul_eq, mkRat_one_eq, qDiv_eq,
      ratTrunc_eq_floor_of_nonneg _ (by positivity)]
    rw [show ((n : ℚ)/1000 + δ) / 60 = ((n : ℚ) + 1000 * δ) / ((60000 : ℕ) : ℚ) by
      push_cast; ring]
    rw [floor_div_add_small n 60000 (1000 * δ) hδ0 hδ1 (by norm_num)]
    have hmod : (n : ℚ) = 60000 * ((n / 60000 : ℕ) : ℚ) + ((n % 60000 : ℕ) : ℚ) := by
      exact_mod_cast (Nat.div_add_mod n 60000).symm
    simp only [Int.cast_natCast]
    linarith
  have hsecs : ratFloor (jsFmod ((n : ℚ)/1000 + δ) 60) = ((n % 60000 / 1000 : ℕ) : ℤ) := by
    rw [hfmod60, ratFloor_eq]
    rw [show ((n % 60000 : ℕ) : ℚ)/1000 + δ = (((n % 60000 : ℕ) : ℚ) + 1000 * δ) / 1000 by
      ring]
    exact_mod_cast floor_div_add_small (n % 60000) 1000 (1000 * δ) hδ0 hδ1 (by norm_num)
  have hfmod1 : jsFmod ((n : ℚ)/1000 + δ) 1 = ((n % 1000 : ℕ) : ℚ)/1000 + δ := by
    rw [jsFmod, qSub_eq, qMul_eq, mkRat_one_eq, qDiv_eq,
      ratTrunc_eq_floor_of_nonneg _ (by positivity)]
    rw [show ((n : ℚ)/1000 + δ) / 1 = ((n : ℚ) + 1000 * δ) / ((1000 : ℕ) : ℚ) by
      push_cast; ring]
    rw [floor_div_add_small n 1000 (1000 * δ) hδ0 hδ1 (by norm_num)]
    have hmod : (n : ℚ) = 1000 * ((n / 1000 : ℕ) : ℚ) + ((n % 1000 : ℕ) : ℚ) := by
      exact_mod_cast (Nat.div_add_mod n 1000).symm
    simp only [Int.cast_natCast]
    linarith
  have hms : ratFloor (qMul (jsFmod ((n : ℚ)/1000 + δ) 1) 1000) = ((n % 1000 : ℕ) : ℤ) := by
    rw [hfmod1, qMul_eq, ratFloor_eq]
    rw [show (((n % 1000 : ℕ) : ℚ)/1000 + δ) * 1000 = (((n % 1000 : ℕ) : ℚ) + 1000 * δ) / 1 by
      ring]
    have := floor_div_add_small (n % 1000) 1 (1000 * δ) hδ0 hδ1 (by norm_num)
    simpa using this
  simp only [hhours, hminutes, hsecs, hms, intToChars_ofNat]

/-- Model of `timeToSeconds` on an `hh:mm:ss,mmm`-shaped string of decimal
fields (of any widths). -/
theorem timeToSeconds_fields (sep : Char) (hsep : isCommaDot sep = true) (A B C D : Str)
    (hA : ∀ c ∈ A, isDigitChar c = true) (hB : ∀ c ∈ B, isDigitChar c = true)
    (hC : ∀ c ∈ C, isDigitChar c = true) (hD : ∀ c ∈ D, isDigitChar c = true) :
    timeToSeconds (A ++ [':'] ++ B ++ [':'] ++ C ++ [sep] ++ D) =
      jsAdd (jsAdd (jsAdd (jsMulConst 3600 (some (mkRat (digitsVal A) 1)))
          (jsMulConst 60 (some (mkRat (digitsVal B) 1)))) (some (mkRat (digitsVal C) 1)))
        (jsDivConst (some (mkRat (digitsVal D) 1)) 1000) := by
  have hnotdot : ∀ c ∈ A ++ [':'] ++ B ++ [':'] ++ C, isCommaDot c = false := by
    intro c hc
    simp only [List.append_assoc, List.mem_append, List.mem_singleton] at hc
    rcases hc with hc | hc | hc | hc | hc
    · exact isDigitChar_not_commaDot c (hA c hc)
    · subst hc; decide
    · exact isDigitChar_not_commaDot c (hB c hc)
    · subst hc; decide
    · exact isDigitChar_not_commaDot c (hC c hc)
  have hAcolon : ∀ c ∈ A, (fun c => decide (c = ':')) c = false := by
    intro c hc
    simp [isDigitChar_not_colon c (hA c hc)]
  have hBcolon : ∀ c ∈ B, (fun c => decide (c = ':')) c = false := by
    intro c hc
    simp [isDigitChar_not_colon c (hB c hc)]
  rw [timeToSeconds]
  rw [show A ++ [':'] ++ B ++ [':'] ++ C ++ [sep] ++ D =
      (A ++ [':'] ++ B ++ [':'] ++ C) ++ sep :: D by simp]
  rw [splitOnPred_append_sep _ _ _ _ hnotdot hsep]
  rw [splitOnPred_no_sep _ D (fun c hc => isDigitChar_not_commaDot c (hD c hc))]
  simp only [List.headD_cons, List.get?_cons_succ, List.get?_cons_zero]
  rw [show A ++ [':'] ++ B ++ [':'] ++ C = A ++ ':' :: (B ++ ':' :: C) by simp]
  rw [splitOnPred_append_sep _ _ _ _ hAcolon (by decide)]
  rw [splitOnPred_append_sep _ _ _ _ hBcolon (by decide)]
  rw [splitOnPred_no_sep _ C (fun c hc => by simp [isDigitChar_not_colon c (hC c hc)])]
  simp only [List.map_cons, List.map_nil, List.get?_cons_succ, List.get?_cons_zero,
    Option.getD_some, jsNumberOpt]
  rw [jsNumber_digits A hA, jsNumber_digits B hB, jsNumber_digits C hC, jsNumber_digits D hD]

/-- Claim C2: for every timestamp value representable at millisecond
precision (`t = n/1000` seconds, `n : ℕ`), formatting with
`formatSrtTime` and parsing back with `timeToSeconds` reproduces `t`
exactly, and formatting truncates (does not round) sub-millisecond
fractions: adding any `0 ≤ eps < 1/1000` to `t` does not change the
formatted string. -/
theorem C2_formatSrtTime_timeToSeconds_roundtrip (n : ℕ) (eps : ℚ) :
    timeToSeconds (formatSrtTime (mkRat n 1000)) = some (mkRat n 1000) ∧
    (0 ≤ eps → eps < mkRat 1 1000 →
      formatSrtTime (qAdd (mkRat n 1000) eps) = formatSrtTime (mkRat n 1000)) := by
  have hmk : (mkRat n 1000 : ℚ) = (n : ℚ)/1000 := by
    rw [Rat.mkRat_eq_div]
    push_cast
    ring
  have h1000 : (mkRat 1 1000 : ℚ) = 1/1000 := by
    rw [Rat.mkRat_eq_div]
    push_cast
    ring
  have hzero : (n : ℚ)/1000 = (n : ℚ)/1000 + 0 := by ring
  constructor
  · rw [hmk, hzero, formatSrtTime_fields n 0 le_rfl (by norm_num)]
    rw [timeToSeconds_fields ',' (by decide) _ _ _ _
      (padStart2_all_digits _ (natToChars_all_digits _))
      (padStart2_all_digits _ (natToChars_all_digits _))
      (padStart2_all_digits _ (natToChars_all_digits _))
      (padStart2_all_digits _ (natToChars_all_digits _))]
    simp only [digitsVal_padStart2, digitsVal_natToChars]
    simp only [jsMulConst, jsAdd, jsDivConst]
    congr 1
    rw [qAdd_eq, qAdd_eq, qAdd_eq, qMul_eq, qMul_eq, qDiv_eq, mkRat_one_eq, mkRat_one_eq,
      mkRat_one_eq, mkRat_one_eq]
    have hnat : 3600000 * (n / 3600000) + 60000 * (n % 3600000 / 60000) +
        1000 * (n % 60000 / 1000) + n % 1000 = n := by omega
    have hq := congrArg (fun m : ℕ => (m : ℚ)) hnat
    push_cast at hq
    simp only [Int.cast_natCast]
    linarith
  · intro h0 h1
    rw [qAdd_eq, hmk]
    rw [formatSrtTime_fields n eps h0 (by rw [h1000] at h1; exact h1)]
    rw [hzero, formatSrtTime_fields n 0 le_rfl (by norm_num)]

/-- Claim C2 witness: `n = 5` ms with the sub-millisecond fraction
`1/2000`. -/
theorem C2_formatSrtTime_timeToSeconds_roundtrip_witness :
    (0 ≤ mkRat 1 2000 ∧ mkRat 1 2000 < mkRat 1 1000) ∧
    timeToSeconds (formatSrtTime (mkRat 5 1000)) = some (mkRat 5 1000) ∧
    formatSrtTime (qAdd (mkRat 5 1000) (mkRat 1 2000)) = formatSrtTime (mkRat 5 1000) :=
  ⟨⟨by decide, by decide⟩,
    (C2_formatSrtTime_timeToSeconds_roundtrip 5 (mkRat 1 2000)).1,
    (C2_formatSrtTime_timeToSeconds_roundtrip 5 (mkRat 1 2000)).2 (by decide) (by decide)⟩

/-! Timestamp-matching lemmas for claim C7. -/

theorem matchTimePairAt_shapes (sep : Char) (s : Str) (g1 g2 : Str)
    (h : matchTimePairAt sep s = some (g1, g2)) :
    stampShape sep g1 = true ∧ stampShape sep g2 = true := by
  rw [matchTimePairAt] at h
  split_ifs at h with hc
  · simp only [Option.some.injEq, Prod.mk.injEq] at h
    obtain ⟨rfl, rfl⟩ := h
    simp only [Bool.and_eq_true] at hc
    exact ⟨hc.1.1, hc.2⟩

theorem matchTimePair_shapes (sep : Char) (line : Str) (g1 g2 : Str)
    (h : matchTimePair sep line = some (g1, g2)) :
    stampShape sep g1 = true ∧ stampShape sep g2 = true := by
  induction line with
  | nil => simp [matchTimePair] at h
  | cons c rest ih =>
    rw [matchTimePair] at h
    cases hm : matchTimePairAt sep (c :: rest) with
    | some r =>
      rw [hm] at h
      simp only [Option.some.injEq] at h
      subst h
      exact matchTimePairAt_shapes sep (c :: rest) g1 g2 hm
    | none =>
      rw [hm] at h
      exact ih h

theorem timeToSeconds_isSome_of_stampShape (sep : Char) (hsep : isCommaDot sep = true)
    (g : Str) (h : stampShape sep g = true) : (timeToSeconds g).isSome := by
  rcases g with _ | ⟨a1, _ | ⟨a2, _ | ⟨c1, _ | ⟨b1, _ | ⟨b2, _ | ⟨c2, _ | ⟨d1, _ | ⟨d2, _ |
    ⟨cm, _ | ⟨e1, _ | ⟨e2, _ | ⟨e3, rest⟩⟩⟩⟩⟩⟩⟩⟩⟩⟩⟩⟩
  all_goals try simp [stampShape] at h
  cases rest with
  | cons x xs => simp [stampShape] at h
  | nil =>
    simp only [stampShape, Bool.and_eq_true, decide_eq_true_eq] at h
    obtain ⟨⟨⟨⟨⟨⟨⟨⟨⟨⟨⟨hA1, hA2⟩, hc1⟩, hB1⟩, hB2⟩, hc2⟩, hD1⟩, hD2⟩, hcm⟩, hE1⟩, hE2⟩, hE3⟩ := h
    subst hc1
    subst hc2
    rw [hcm]
    have : ([a1, a2, ':', b1, b2, ':', d1, d2, sep, e1, e2, e3] : Str) =
        [a1, a2] ++ [':'] ++ [b1, b2] ++ [':'] ++ [d1, d2] ++ [sep] ++ [e1, e2, e3] := by
      simp
    rw [this, timeToSeconds_fields sep hsep [a1, a2] [b1, b2] [d1, d2] [e1, e2, e3]
      (by intro c hc
          simp only [List.mem_cons, List.not_mem_nil, or_false] at hc
          rcases hc with rfl | rfl <;> assumption)
      (by intro c hc
          simp only [List.mem_cons, List.not_mem_nil, or_false] at hc
          rcases hc with rfl | rfl <;> assumption)
      (by intro c hc
          simp only [List.mem_cons, List.not_mem_nil, or_false] at hc
          rcases hc with rfl | rfl <;> assumption)
      (by intro c hc
          simp only [List.mem_cons, List.not_mem_nil, or_false] at hc
          rcases hc with rfl | rfl | rfl <;> assumption)]
    simp [jsAdd, jsMulConst, jsDivConst]

/-- Claim C7 (amended): every caption emitted by `parseSRT` or
`parseVTT` has both timestamps successfully parsed (non-`NaN`), because
those parsers only emit a caption when the strict timestamp regexp
matched; blocks with too few lines or no match are discarded.  (ASS
discards only lines with fewer than 10 comma-fields and keeps
unparseable `NaN` timestamps, and no parser checks
`endTime > startTime` — see the counterexample.) -/
theorem C7_srt_vtt_timestamps_parse (content : Str) :
    (∀ c ∈ parseSRT content, c.startTime.isSome ∧ c.endTime.isSome) ∧
    (∀ l, parseVTT content = some l → ∀ c ∈ l, c.startTime.isSome ∧ c.endTime.isSome) := by
  constructor
  · intro c hc
    rw [parseSRT] at hc
    simp only [List.mem_filterMap, id, List.mem_map] at hc
    obtain ⟨o, ⟨p, hp, hgp⟩, hoc⟩ := hc
    subst hoc
    by_cases hlen : (splitOnPred (· = '\n') (jsTrim p.2)).length < 3
    · rw [if_pos hlen] at hgp
      exact absurd hgp (by simp)
    · rw [if_neg hlen] at hgp
      cases hm : matchTimePair ',' ((splitOnPred (· = '\n') (jsTrim p.2)).getD 1 []) with
      | none =>
        simp only [hm] at hgp
        exact absurd hgp (by simp)
      | some r =>
        obtain ⟨g1, g2⟩ := r
        simp only [hm, Option.some.injEq] at hgp
        obtain ⟨hs1, hs2⟩ := matchTimePair_shapes ',' _ g1 g2 hm
        rw [← hgp]
        exact ⟨timeToSeconds_isSome_of_stampShape ',' (by decide) g1 hs1,
          timeToSeconds_isSome_of_stampShape ',' (by decide) g2 hs2⟩
  · intro l hl c hc
    rw [parseVTT] at hl
    split_ifs at hl
    · simp only [Option.some.injEq] at hl
      subst hl
      simp only [List.mem_filterMap, id, List.mem_map] at hc
      obtain ⟨o, ⟨p, hp, hgp⟩, hoc⟩ := hc
      subst hoc
      by_cases hlen : (splitOnPred (· = '\n') (jsTrim p.2)).length < 2
      · rw [if_pos hlen] at hgp
        exact absurd hgp (by simp)
      · rw [if_neg hlen] at hgp
        cases hm : matchTimePair '.' ((splitOnPred (· = '\n') (jsTrim p.2)).getD 0 []) with
        | none =>
          simp only [hm] at hgp
          exact absurd hgp (by simp)
        | some r =>
          obtain ⟨g1, g2⟩ := r
          simp only [hm, Option.some.injEq] at hgp
          obtain ⟨hs1, hs2⟩ := matchTimePair_shapes '.' _ g1 g2 hm
          rw [← hgp]
          exact ⟨timeToSeconds_isSome_of_stampShape '.' (by decide) g1 hs1,
            timeToSeconds_isSome_of_stampShape '.' (by decide) g2 hs2⟩

/-- Claim C7 witness: the caption parsed from a concrete SRT cue. -/
theorem C7_srt_vtt_timestamps_parse_witness :
    ({ id := 0, startTime := some (mkRat 0 1), endTime := some (mkRat 10 1),
        text := ['h', 'i'] } : Caption).startTime.isSome ∧
    ({ id := 0, startTime := some (mkRat 0 1), endTime := some (mkRat 10 1),
        text := ['h', 'i'] } : Caption).endTime.isSome :=
  (C7_srt_vtt_timestamps_parse sampleSrtContent).1 _ (by decide)

/-- Claim C7 (counterexample): no parser drops a caption with
`endTime ≤ startTime` — `parseSRT` happily emits a caption with
`startTime = 2 > endTime = 1` — and `parseASS` does not discard entries
whose timestamps fail to parse: it keeps them with `NaN` times. -/
theorem C7_end_not_after_start_kept_cex :
    parseSRT sampleReversedSrtContent =
      [{ id := 0, startTime := some (mkRat 2 1), endTime := some (mkRat 1 1),
         text := ['h', 'i'] }] ∧
    parseASS sampleBadAssContent =
      some [{ id := 0, startTime := none, endTime := none, text := ['t', 'x', 't'],
              voice := some ['a', ' ', 'b'] }] := by
  refine ⟨by decide, by decide⟩

/-! Normalizer-ordering lemmas for claim C4. -/

theorem timeLeProp_trans {a b c : JSNum} (h1 : timeLeProp a b) (h2 : timeLeProp b c) :
    timeLeProp a c := by
  cases a <;> cases b <;> cases c <;> simp_all [timeLeProp]
  exact le_trans h1 h2

theorem timeLeProp_refl {a : JSNum} (h : a.isSome) : timeLeProp a a := by
  cases a
  · simp at h
  · simp [timeLeProp]

theorem mem_insertCmp {α : Type} (cmp : α → α → ℤ) (x : α) (l : List α) (c : α) :
    c ∈ insertCmp cmp x l ↔ c = x ∨ c ∈ l := by
  induction l with
  | nil => simp [insertCmp]
  | cons y ys ih =>
    rw [insertCmp]
    split_ifs
    · simp [List.mem_cons]
    · simp only [List.mem_cons, ih]
      tauto

theorem captionTimeCmp_signs (x y : Caption) (hx : x.startTime.isSome)
    (hy : y.startTime.isSome) :
    (captionTimeCmp x y < 0 → timeLeProp x.startTime y.startTime) ∧
    (0 ≤ captionTimeCmp x y → timeLeProp y.startTime x.startTime) := by
  obtain ⟨a, ha⟩ := Option.isSome_iff_exists.mp hx
  obtain ⟨b, hb⟩ := Option.isSome_iff_exists.mp hy
  rw [captionTimeCmp, ha, hb, timeLeProp.eq_def, timeLeProp.eq_def]
  simp only [jsEqB, jsGtB, decide_eq_true_eq]
  by_cases hab : a = b
  · subst hab
    rw [if_pos rfl]
    split_ifs <;> exact ⟨fun _ => le_rfl, fun _ => le_rfl⟩
  · rw [if_neg hab]
    by_cases hba : b < a
    · rw [if_pos (by simpa using hba)]
      exact ⟨fun h => absurd h (by norm_num), fun _ => le_of_lt hba⟩
    · rw [if_neg (by simpa using hba)]
      exact ⟨fun _ => le_of_not_lt hba, fun h => absurd h (by norm_num)⟩

theorem insertCmp_head? {α : Type} (cmp : α → α → ℤ) (x : α) (l : List α) :
    (insertCmp cmp x l).head? = some x ∨ (insertCmp cmp x l).head? = l.head? := by
  cases l with
  | nil => left; rfl
  | cons y ys =>
    rw [insertCmp]
    split_ifs
    · left; rfl
    · right; rfl

theorem insertCmp_chain' (x : Caption) (l : List Caption)
    (hx : x.startTime.isSome) (hl : ∀ c ∈ l, c.startTime.isSome)
    (hs : l.Chain' startLe) : (insertCmp captionTimeCmp x l).Chain' startLe := by
  induction l with
  | nil => simp [insertCmp]
  | cons y ys ih =>
    have hy : y.startTime.isSome := hl y (by simp)
    rw [insertCmp]
    by_cases hcmp : captionTimeCmp x y < 0
    · rw [if_pos hcmp]
      exact List.Chain'.cons ((captionTimeCmp_signs x y hx hy).1 hcmp) hs
    · rw [if_neg hcmp]
      have ihy := ih (fun c hc => hl c (by simp [hc])) hs.tail
      rw [List.chain'_cons']
      refine ⟨?_, ihy⟩
      intro h hh
      rcases insertCmp_head? captionTimeCmp x ys with he | he
      · rw [he] at hh
        simp only [Option.mem_def, Option.some.injEq] at hh
        subst hh
        exact (captionTimeCmp_signs x y hx hy).2 (le_of_not_lt hcmp)
      · rw [he] at hh
        exact (List.chain'_cons'.mp hs).1 h hh

theorem jsSort_sorted (l : List Caption) (hl : ∀ c ∈ l, c.startTime.isSome) :
    (jsSort captionTimeCmp l).Chain' startLe ∧
    ∀ c ∈ jsSort captionTimeCmp l, c.startTime.isSome := by
  rw [jsSort]
  suffices h : ∀ (l acc : List Caption), (∀ c ∈ l, c.startTime.isSome) →
      (∀ c ∈ acc, c.startTime.isSome) → acc.Chain' startLe →
      (l.foldl (fun acc x => insertCmp captionTimeCmp x acc) acc).Chain' startLe ∧
      ∀ c ∈ l.foldl (fun acc x => insertCmp captionTimeCmp x acc) acc,
        c.startTime.isSome by
    exact h l [] hl (by simp) (by simp)
  intro l
  induction l with
  | nil => intro acc _ hacc hchain; exact ⟨hchain, hacc⟩
  | cons x xs ih =>
    intro acc hxs hacc hchain
    rw [List.foldl_cons]
    refine ih (insertCmp captionTimeCmp x acc) (fun c hc => hxs c (by simp [hc])) ?_ ?_
    · intro c hc
      rcases (mem_insertCmp _ _ _ _).mp hc with rfl | hc
      · exact hxs c (by simp)
      · exact hacc c hc
    · exact insertCmp_chain' x acc (hxs x (by simp)) hacc hchain

theorem mergeAux_sorted (l : List Caption) :
    ∀ (x : Caption), x.startTime.isSome → (∀ c ∈ l, c.startTime.isSome) →
    (x :: l).Chain' startLe →
    (mergeAux x l).Chain' startLe ∧
    ∀ h ∈ (mergeAux x l).head?, timeLeProp x.startTime h.startTime := by
  induction l with
  | nil =>
    intro x hx _ _
    refine ⟨by simp [mergeAux], ?_⟩
    intro h hh
    simp only [mergeAux, List.head?_cons, Option.mem_def, Option.some.injEq] at hh
    subst hh
    exact timeLeProp_refl hx
  | cons next rest ih =>
    intro x hx hl hchain
    have hnext : next.startTime.isSome := hl next (by simp)
    have hxnext : startLe x next := (List.chain'_cons.mp hchain).1
    have hrest_chain : (next :: rest).Chain' startLe := (List.chain'_cons.mp hchain).2
    have hrest_some : ∀ c ∈ rest, c.startTime.isSome := fun c hc => hl c (by simp [hc])
    rw [mergeAux]
    by_cases hcond : x.text = next.text ∧ isOverlapping x next
    · rw [if_pos hcond]
      obtain ⟨a, ha⟩ := Option.isSome_iff_exists.mp hx
      obtain ⟨b, hb⟩ := Option.isSome_iff_exists.mp hnext
      have hab : a ≤ b := by
        have := hxnext
        rw [startLe, ha, hb] at this
        exact this
      have hmin : jsMin x.startTime next.startTime = some a := by
        rw [ha, hb, jsMin]
        simp [min_eq_left hab]
      have hchain_merged : List.Chain' startLe
          ({ next with startTime := jsMin x.startTime next.startTime, endTime := jsMax x.endTime next.endTime } :: rest) := by
        rw [List.chain'_cons']
        refine ⟨?_, hrest_chain.tail⟩
        intro h hh
        have hnexth := (List.chain'_cons'.mp hrest_chain).1 h hh
        rw [startLe] at hnexth ⊢
        simp only [hmin]
        rw [hb] at hnexth
        have : timeLeProp (some a) (some b) := by simp [timeLeProp, hab]
        exact timeLeProp_trans this hnexth
      obtain ⟨hc1, hc2⟩ := ih _ (by simp [hmin]) hrest_some hchain_merged
      refine ⟨hc1, ?_⟩
      intro h hh
      have := hc2 h hh
      simp only [hmin] at this
      rw [ha]
      exact this
    · rw [if_neg hcond]
      obtain ⟨hc1, hc2⟩ := ih next hnext hrest_some hrest_chain
      constructor
      · rw [List.chain'_cons']
        refine ⟨?_, hc1⟩
        intro h hh
        exact timeLeProp_trans hxnext (hc2 h hh)
      · intro h hh
        simp only [List.head?_cons, Option.mem_def, Option.some.injEq] at hh
        subst hh
        exact timeLeProp_refl hx

theorem assignLanesAux_map_start (l acc : List Caption) :
    (assignLanesAux acc l).map (fun c => c.startTime) =
      acc.map (fun c => c.startTime) ++ l.map (fun c => c.startTime) := by
  induction l generalizing acc with
  | nil => simp [assignLanesAux]
  | cons c rest ih =>
    rw [assignLanesAux, ih]
    simp

/-- Claim C4 (amended, part that holds): for every caption list with
non-`NaN` start times, the normalizer pipeline (sort, then duplicate
merge, then lane assignment) yields captions non-decreasing by
`startTime`. -/
theorem C4_pipeline_sorted_by_startTime (l : List Caption)
    (hl : ∀ c ∈ l, c.startTime.isSome) :
    (assignCaptionsToLanes (mergeDuplicates (sortCaptionsByTime l))).Chain' startLe := by
  obtain ⟨hsorted, hsome⟩ := jsSort_sorted l hl
  have hmerged : (mergeDuplicates (sortCaptionsByTime l)).Chain' startLe := by
    rw [sortCaptionsByTime]
    cases hs : jsSort captionTimeCmp l with
    | nil => simp [mergeDuplicates]
    | cons x rest =>
      rw [hs] at hsorted hsome
      exact (mergeAux_sorted rest x (hsome x (by simp))
        (fun c hc => hsome c (by simp [hc])) hsorted).1
  have hmap := assignLanesAux_map_start (mergeDuplicates (sortCaptionsByTime l)) []
  rw [List.map_nil, List.nil_append] at hmap
  have h1 : (mergeDuplicates (sortCaptionsByTime l)).Chain'
      (fun a b => timeLeProp a.startTime b.startTime) := hmerged
  have h2 := (List.chain'_map (fun c : Caption => c.startTime)).mpr h1
  rw [← hmap] at h2
  rw [assignCaptionsToLanes]
  exact (List.chain'_map (fun c : Caption => c.startTime)).mp h2

/-- Claim C4 witness: the pipeline output of a concrete two-caption
list is sorted by start time. -/
theorem C4_pipeline_sorted_by_startTime_witness :
    (∀ c ∈ [sampleCapB, sampleCapA], c.startTime.isSome) ∧
    (assignCaptionsToLanes (mergeDuplicates
      (sortCaptionsByTime [sampleCapB, sampleCapA]))).Chain' startLe :=
  ⟨by decide, C4_pipeline_sorted_by_startTime [sampleCapB, sampleCapA] (by decide)⟩

/-- Claim C4 (counterexample): lane assignment does NOT guarantee that
same-lane captions are temporally disjoint.  On `c4CounterList` the
pipeline assigns lane 0 both to the caption `[0,100]` and to the
caption `[3.6,10]`, whose interval lies strictly inside `[0,100]`: the
bounded 5-miss backward scan gives up before reaching the lane-0
caption. -/
theorem C4_same_lane_captions_overlap_cex :
    ((assignCaptionsToLanes (mergeDuplicates (sortCaptionsByTime c4CounterList))).map
        (·.lane)) =
      [some 0, some 1, some 1, some 1, some 1, some 1, some 1, some 1, some 0] ∧
    ((assignCaptionsToLanes (mergeDuplicates (sortCaptionsByTime c4CounterList))).getD 0
        emptyCaption).startTime = some (mkRat 0 1) ∧
    ((assignCaptionsToLanes (mergeDuplicates (sortCaptionsByTime c4CounterList))).getD 0
        emptyCaption).endTime = some (mkRat 100 1) ∧
    ((assignCaptionsToLanes (mergeDuplicates (sortCaptionsByTime c4CounterList))).getD 8
        emptyCaption).startTime = some (mkRat 18 5) ∧
    ((assignCaptionsToLanes (mergeDuplicates (sortCaptionsByTime c4CounterList))).getD 8
        emptyCaption).endTime = some (mkRat 10 1) ∧
    mkRat 0 1 ≤ mkRat 18 5 ∧ mkRat 18 5 < mkRat 10 1 ∧ mkRat 10 1 ≤ mkRat 100 1 := by
  refine ⟨by decide, by decide, by decide, by decide, by decide, by decide, by decide,
    by decide⟩

end Animebook
